import Mathlib

/-!
Verification of the analytics core of the Vehicle-Registration-Analytics-Dashboard
repository.  The Python sources embedded here are
`src/analytics_engine.py` (class VahanAnalyticsEngine),
`src/investor_insights.py` (class InvestorInsightsGenerator) and
`src/database_manager.py` (class VahanDatabaseManager).

Modelling conventions:
* pandas numeric values are embedded as `Nat` (registration counts) and `ℚ`
  (shares, rates, scores): all the arithmetic performed by the source on the
  claim-relevant paths is exact decimal arithmetic on such values;
* Python `round(x, n)` is round-half-to-even (`roundHalfEven` below), the SQLite
  `ROUND` function is round-half-away-from-zero (`roundHalfAway` below);
* pandas `groupby` iterates groups in sorted key order, `Series.unique` keeps
  first-occurrence order: `sortK`/`sortD` and `uniq` below reproduce this;
* Python's stable `list.sort` is embedded as the stable insertion sort `sortD`.
-/

set_option maxHeartbeats 1000000

-- The Batteries rational-number operations are irreducible by default, which
-- blocks kernel evaluation of concrete scenarios; make them reducible here.
unseal Rat.mul Rat.inv Rat.add Rat.sub

namespace Vahan

/-- A vehicle registration record, one row of the `vehicle_registrations` table
(src/database_manager.py) and of the pandas frames consumed by
`VahanAnalyticsEngine` (src/analytics_engine.py).  The `date` and `month`
columns are never read by the analytics functions embedded here and are
omitted.  The quarter label `"Qn"` is represented by its digit `n`, which is
exactly what the source reads from it (`quarter.str[1].astype(int)`).
The optional `fuel_type` column is a per-frame matter (`'fuel_type' in
df.columns`); functions that test for it take a `hasFuel : Bool` argument, and
the per-row value lives in `fuel_type`. -/
structure Record where
  year : Nat
  quarter : Nat
  vehicle_type : String
  manufacturer : String
  registrations : Nat
  fuel_type : String
deriving DecidableEq

/-- Sum of the `registrations` column of a frame. -/
def sumReg (g : List Record) : Nat := (g.map (·.registrations)).sum

theorem sumReg_filter_add_not (g : List Record) (p : Record → Bool) :
    sumReg (g.filter p) + sumReg (g.filter (fun r => ¬ p r)) = sumReg g := by
  induction g with
  | nil => rfl
  | cons a as ih =>
    by_cases h : p a <;>
      simp [sumReg, List.filter_cons, h, List.map_cons, List.sum_cons] at ih ⊢ <;> omega

theorem sumReg_filter_le (g : List Record) (p : Record → Bool) :
    sumReg (g.filter p) ≤ sumReg g := by
  have := sumReg_filter_add_not g p
  omega

/-- Distinct elements in first-occurrence order, matching pandas
`Series.unique` / `DataFrame.drop_duplicates`. -/
def uniq {α} [DecidableEq α] : List α → List α
  | [] => []
  | a :: as => a :: (uniq as).filter (fun b => b ≠ a)

theorem mem_uniq {α} [DecidableEq α] {x : α} {l : List α} : x ∈ uniq l ↔ x ∈ l := by
  induction l with
  | nil => simp [uniq]
  | cons a as ih =>
    simp only [uniq, List.mem_cons, List.mem_filter]
    constructor
    · rintro (rfl | ⟨hx, _⟩)
      · exact Or.inl rfl
      · exact Or.inr (ih.1 hx)
    · rintro (rfl | hx)
      · exact Or.inl rfl
      · by_cases hax : x = a
        · exact Or.inl hax
        · exact Or.inr ⟨ih.2 hx, by simp [hax]⟩

theorem nodup_uniq {α} [DecidableEq α] (l : List α) : (uniq l).Nodup := by
  induction l with
  | nil => simp [uniq]
  | cons a as ih =>
    refine List.Nodup.cons ?_ (ih.filter _)
    intro hmem
    have := (List.mem_filter.1 hmem).2
    simp at this

/-- Stable insertion step for the descending sort `sortD`: walk past strictly
greater elements, so that an element is always placed before the elements of
equal measure that were already in the list. -/
def insD {α β : Type} [LinearOrder β] (f : α → β) (m : α) : List α → List α
  | [] => [m]
  | a :: as => if f m < f a then a :: insD f m as else m :: a :: as

/-- Stable descending sort by measure `f`; embeds Python's stable
`list.sort(key=..., reverse=True)` (src/analytics_engine.py line 132) and
pandas `sort_values(ascending=False)`. -/
def sortD {α β : Type} [LinearOrder β] (f : α → β) : List α → List α
  | [] => []
  | a :: as => insD f a (sortD f as)

theorem insD_perm {α β : Type} [LinearOrder β] (f : α → β) (m : α) (l : List α) :
    List.Perm (insD f m l) (m :: l) := by
  induction l with
  | nil => rfl
  | cons a as ih =>
    by_cases h : f m < f a
    · simpa [insD, h] using ((ih.cons a).trans (List.Perm.swap m a as))
    · simp [insD, h]

theorem sortD_perm {α β : Type} [LinearOrder β] (f : α → β) (l : List α) :
    List.Perm (sortD f l) l := by
  induction l with
  | nil => rfl
  | cons a as ih => exact (insD_perm f a (sortD f as)).trans (ih.cons a)

theorem insD_pairwise {α β : Type} [LinearOrder β] (f : α → β) (m : α) {l : List α}
    (h : l.Pairwise (fun a b => f b ≤ f a)) :
    (insD f m l).Pairwise (fun a b => f b ≤ f a) := by
  induction l with
  | nil => simp [insD]
  | cons a as ih =>
    rcases List.pairwise_cons.1 h with ⟨ha, has⟩
    by_cases hm : f m < f a
    · rw [insD, if_pos hm]
      refine List.pairwise_cons.2 ⟨?_, ih has⟩
      intro x hx
      rcases List.mem_cons.1 ((insD_perm f m as).mem_iff.1 hx) with rfl | hxas
      · exact le_of_lt hm
      · exact ha x hxas
    · rw [insD, if_neg hm]
      refine List.pairwise_cons.2 ⟨?_, h⟩
      intro x hx
      rcases List.mem_cons.1 hx with rfl | hxas
      · exact not_lt.1 hm
      · exact le_trans (ha x hxas) (not_lt.1 hm)

theorem sortD_pairwise {α β : Type} [LinearOrder β] (f : α → β) (l : List α) :
    (sortD f l).Pairwise (fun a b => f b ≤ f a) := by
  induction l with
  | nil => simp [sortD]
  | cons a as ih => exact insD_pairwise f a ih

theorem insD_filter {α β : Type} [LinearOrder β] [DecidableEq β] (f : α → β) (m : α)
    (l : List α) (q : β) :
    (insD f m l).filter (fun a => f a = q)
      = if f m = q then m :: l.filter (fun a => f a = q)
        else l.filter (fun a => f a = q) := by
  induction l with
  | nil => by_cases h : f m = q <;> simp [insD, List.filter, h]
  | cons a as ih =>
    by_cases hm : f m < f a
    · have hne : ¬ (f m = q ∧ f a = q) := by
        rintro ⟨h1, h2⟩
        rw [h1, h2] at hm
        exact lt_irrefl q hm
      rw [insD, if_pos hm]
      by_cases ha : f a = q
      · have hmq : ¬ f m = q := fun h => hne ⟨h, ha⟩
        simp [List.filter_cons, ha, ih, hmq]
      · simp [List.filter_cons, ha, ih]
    · rw [insD, if_neg hm]
      by_cases hq : f m = q <;> simp [List.filter_cons, hq]

theorem sortD_filter {α β : Type} [LinearOrder β] [DecidableEq β] (f : α → β)
    (l : List α) (q : β) :
    (sortD f l).filter (fun a => f a = q) = l.filter (fun a => f a = q) := by
  induction l with
  | nil => rfl
  | cons a as ih =>
    rw [sortD, insD_filter, List.filter_cons]
    by_cases h : f a = q <;> simp [h, ih]

/-- Lexicographic comparison of strings as code-point lists (the order Python
uses for strings).  Written out on `List Char` so that it evaluates inside the
kernel. -/
def charListLt : List Char → List Char → Bool
  | [], [] => false
  | [], _ :: _ => true
  | _ :: _, [] => false
  | a :: as, b :: bs => if a < b then true else if b < a then false else charListLt as bs

/-- String comparison via `charListLt`. -/
def strLtB (a b : String) : Bool := charListLt a.toList b.toList

/-- Boolean lexicographic order on group keys (lists of column values); pandas
`groupby` iterates groups in this order. -/
def keyLtB : List String → List String → Bool
  | [], [] => false
  | [], _ :: _ => true
  | _ :: _, [] => false
  | a :: as, b :: bs => if strLtB a b then true else if strLtB b a then false else keyLtB as bs

/-- Ascending insertion for `sortK`. -/
def insK (m : List String) : List (List String) → List (List String)
  | [] => [m]
  | a :: as => if keyLtB a m then a :: insK m as else m :: a :: as

/-- Ascending sort of group keys, reproducing pandas `groupby`'s sorted group
order. -/
def sortK : List (List String) → List (List String)
  | [] => []
  | a :: as => insK a (sortK as)

theorem insK_perm (m : List String) (l : List (List String)) :
    List.Perm (insK m l) (m :: l) := by
  induction l with
  | nil => rfl
  | cons a as ih =>
    by_cases h : keyLtB a m
    · simpa [insK, h] using ((ih.cons a).trans (List.Perm.swap m a as))
    · simp [insK, h]

theorem sortK_perm (l : List (List String)) : List.Perm (sortK l) l := by
  induction l with
  | nil => rfl
  | cons a as ih => exact (insK_perm a (sortK as)).trans (ih.cons a)

/-- Round half to even, the rounding used by Python's built-in `round`. -/
def roundHalfEven (q : ℚ) : ℤ :=
  if q - ⌊q⌋ < 1/2 then ⌊q⌋
  else if 1/2 < q - ⌊q⌋ then ⌊q⌋ + 1
  else if ⌊q⌋ % 2 = 0 then ⌊q⌋ else ⌊q⌋ + 1

/-- Python `round(x, 2)`. -/
def pyRound2 (q : ℚ) : ℚ := (roundHalfEven (q * 100) : ℚ) / 100

/-- Python `round(x, 1)`. -/
def pyRound1 (q : ℚ) : ℚ := (roundHalfEven (q * 10) : ℚ) / 10

/-- Round half away from zero, the rounding used by SQLite's `ROUND`. -/
def roundHalfAway (q : ℚ) : ℤ :=
  if 0 ≤ q then ⌊q + 1/2⌋ else -⌊(1/2) - q⌋

/-- SQLite `ROUND(x, 2)`. -/
def sqliteRound2 (q : ℚ) : ℚ := (roundHalfAway (q * 100) : ℚ) / 100

theorem roundHalfEven_nonneg {q : ℚ} (h : 0 ≤ q) : 0 ≤ roundHalfEven q := by
  have h0 : (0 : ℤ) ≤ ⌊q⌋ := Int.floor_nonneg.2 h
  unfold roundHalfEven
  split
  · exact h0
  · split
    · omega
    · split <;> omega

theorem roundHalfEven_le {q : ℚ} {n : ℤ} (h : q ≤ n) : roundHalfEven q ≤ n := by
  have hfl : ⌊q⌋ ≤ n := by
    have := Int.floor_le_floor h
    simpa using this
  have hq : (⌊q⌋ : ℚ) ≤ q := Int.floor_le q
  unfold roundHalfEven
  split
  · exact hfl
  · rename_i h1
    have hlt : ⌊q⌋ < n := by
      rcases lt_or_eq_of_le hfl with h' | h'
      · exact h'
      · exfalso
        have : q = (n : ℚ) := le_antisymm h (by rw [← h']; exact hq)
        rw [this, ← h'] at h1
        simp at h1
    split
    · omega
    · split <;> omega

theorem pyRound1_nonneg {q : ℚ} (h : 0 ≤ q) : 0 ≤ pyRound1 q := by
  unfold pyRound1
  have : (0 : ℚ) ≤ (roundHalfEven (q * 10) : ℚ) := by
    exact_mod_cast roundHalfEven_nonneg (by positivity)
  positivity

theorem pyRound1_le_100 {q : ℚ} (h : q ≤ 100) : pyRound1 q ≤ 100 := by
  unfold pyRound1
  have h10 : q * 10 ≤ ((1000 : ℤ) : ℚ) := by push_cast; linarith
  have := roundHalfEven_le h10
  have hc : ((roundHalfEven (q * 10) : ℤ) : ℚ) ≤ 1000 := by exact_mod_cast this
  linarith

/-- A growth metric, the `GrowthMetric` dataclass of src/analytics_engine.py. -/
structure GM where
  entity : String
  period : String
  current_value : Nat
  previous_value : Nat
  growth_rate : ℚ
  growth_absolute : ℤ
  rank : Nat
deriving DecidableEq

/-- A metric with its rank reset to the pre-ranking placeholder `0`, used to
compare metric contents while ignoring the rank field. -/
def stripRank (m : GM) : GM := { m with rank := 0 }

/-- A column usable in the `group_by` argument of `calculate_growth_metrics`
(the source passes `['manufacturer']`, `['vehicle_type']` or
`['manufacturer', 'vehicle_type']`). -/
inductive Col
  | manufacturer
  | vehicleType
deriving DecidableEq

/-- Value of a grouping column in a record. -/
def colVal : Col → Record → String
  | Col.manufacturer, r => r.manufacturer
  | Col.vehicleType, r => r.vehicle_type

/-- The key of a record under a `group_by` list. -/
def keyOf (gb : List Col) (r : Record) : List String := gb.map (fun c => colVal c r)

/-- The rows of one group (`yearly_data[group_filter]` in the source). -/
def groupRows (gb : List Col) (rows : List Record) (k : List String) : List Record :=
  rows.filter (fun r => keyOf gb r = k)

/-- Registration sum of one (group, year) cell, i.e. one row of the source's
`df.groupby(group_by + ['year'])['registrations'].sum()`. -/
def yearSum (g : List Record) (y : Nat) : Nat :=
  sumReg (g.filter (fun r => r.year = y))

/-- The distinct years of a group in ascending (chronological) order, matching
the source's `sort_values('year')` on the grouped frame. -/
def groupYears (g : List Record) : List Nat :=
  sortD (fun y : Nat => OrderDual.toDual y) (uniq (g.map (·.year)))

/-- The group keys in pandas `groupby` order (sorted, distinct), the source's
`yearly_data[group_by].drop_duplicates().values`. -/
def sortedKeys (gb : List Col) (rows : List Record) : List (List String) :=
  sortK (uniq (rows.map (keyOf gb)))

/-- The entity name: `' - '.join(...)` of the group key values. -/
def entityName (k : List String) : String := String.intercalate " - " k

/-- The metrics emitted for one group by the YoY branch of
`calculate_growth_metrics` (src/analytics_engine.py lines 70-95): one metric
per pair of adjacent rows of the year-sorted group frame whose previous sum is
positive, with `rank = 0` as a placeholder. -/
def groupMetrics (gb : List Col) (rows : List Record) (k : List String) : List GM :=
  let g := groupRows gb rows k
  let ys := groupYears g
  (ys.zip ys.tail).filterMap fun pc =>
    let p := yearSum g pc.1
    let c := yearSum g pc.2
    if 0 < p then
      some { entity := entityName k
             period := toString pc.2
             current_value := c
             previous_value := p
             growth_rate := pyRound2 (((c : ℚ) - (p : ℚ)) / (p : ℚ) * 100)
             growth_absolute := (c : ℤ) - (p : ℤ)
             rank := 0 }
    else none

/-- The final ranking pass of `calculate_growth_metrics` (lines 131-134):
stable sort by `growth_rate` descending, then `rank = position + 1`. -/
def assignRanks (l : List GM) : List GM :=
  ((sortD (fun m : GM => m.growth_rate) l).enum).map fun p => { p.2 with rank := p.1 + 1 }

/-- The YoY branch of `VahanAnalyticsEngine.calculate_growth_metrics`
(src/analytics_engine.py lines 48-136 with `period_type = GrowthPeriod.YOY`). -/
def calculate_growth_metrics_yoy (gb : List Col) (rows : List Record) : List GM :=
  assignRanks ((sortedKeys gb rows).flatMap (groupMetrics gb rows))

/-- Rows of one vehicle category (`df[df['vehicle_type'] == vehicle_type]`). -/
def vtRows (rows : List Record) (vt : String) : List Record :=
  rows.filter (fun r => r.vehicle_type = vt)

/-- The distinct vehicle types in first-occurrence order
(`df['vehicle_type'].unique()`). -/
def uniqueVts (rows : List Record) : List String :=
  uniq (rows.map (·.vehicle_type))

/-- The distinct manufacturers of a frame, in first-occurrence order.  (pandas
`groupby('manufacturer')` lists them alphabetically; the order only influences
which of several equal-share manufacturers is reported as leader, which no
claim depends on.) -/
def manusOf (g : List Record) : List String :=
  uniq (g.map (·.manufacturer))

/-- Registration total of one manufacturer inside a frame
(`vehicle_data.groupby('manufacturer')['registrations'].sum()`). -/
def manuSum (g : List Record) (m : String) : Nat :=
  sumReg (g.filter (fun r => r.manufacturer = m))

/-- Percent market share of one manufacturer inside a frame
(`manufacturer_totals / total_market * 100`).  In pandas a zero total yields
NaN shares, but every quantity a claim mentions (`cr4`, `cr8`, `hhi`, obtained
from NaN-skipping sums) then evaluates to `0`, which is also the value produced
here by rational division by zero. -/
def shareOf (g : List Record) (m : String) : ℚ :=
  (manuSum g m : ℚ) / (sumReg g : ℚ) * 100

/-- The (manufacturer, share) pairs sorted by share descending
(`market_shares.sort_values(ascending=False)`). -/
def sharePairs (g : List Record) : List (String × ℚ) :=
  sortD (fun p : String × ℚ => p.2) ((manusOf g).map (fun m => (m, shareOf g m)))

/-- The share values in descending order. -/
def sharesOf (g : List Record) : List ℚ := (sharePairs g).map (·.2)

/-- CR4: combined share of the top 4 manufacturers (`market_shares.head(4).sum()`). -/
def cr4Of (g : List Record) : ℚ := ((sharesOf g).take 4).sum

/-- CR8: combined share of the top 8 manufacturers (`market_shares.head(8).sum()`). -/
def cr8Of (g : List Record) : ℚ := ((sharesOf g).take 8).sum

/-- Herfindahl-Hirschman index (`(market_shares ** 2).sum()`). -/
def hhiOf (g : List Record) : ℚ := ((sharesOf g).map (fun s => s ^ 2)).sum

/-- `VahanAnalyticsEngine._classify_market_structure` (src/analytics_engine.py
lines 329-338), with the exact strings returned by the source. -/
def classify_market_structure (hhi : ℚ) : String :=
  if 2500 < hhi then "Highly Concentrated (Oligopoly)"
  else if 1500 < hhi then "Moderately Concentrated"
  else if 1000 < hhi then "Unconcentrated (Competitive)"
  else "Highly Competitive"

/-- One category's entry of the dictionary built by
`calculate_market_concentration`. -/
structure Conc where
  total_manufacturers : Nat
  market_leader : String
  leader_share : ℚ
  cr4_ratio : ℚ
  cr8_ratio : ℚ
  hhi_index : ℚ
  effective_competitors : ℚ
  market_structure : String
  top_5_shares : List (String × ℚ)
deriving DecidableEq

/-- The per-category computation inside `calculate_market_concentration`
(src/analytics_engine.py lines 297-325). -/
def concFor (g : List Record) : Conc :=
  { total_manufacturers := (sharePairs g).length
    market_leader := ((sharePairs g).headD ("", 0)).1
    leader_share := ((sharePairs g).headD ("", 0)).2
    cr4_ratio := cr4Of g
    cr8_ratio := cr8Of g
    hhi_index := hhiOf g
    effective_competitors := if 0 < hhiOf g then 1 / (hhiOf g / 10000) else 0
    market_structure := classify_market_structure (hhiOf g)
    top_5_shares := (sharePairs g).take 5 }

/-- `VahanAnalyticsEngine.calculate_market_concentration`
(src/analytics_engine.py lines 285-327): one entry per distinct
vehicle type, keyed and ordered like the source's dictionary. -/
def calculate_market_concentration (rows : List Record) : List (String × Conc) :=
  (uniqueVts rows).map fun vt => (vt, concFor (vtRows rows vt))

/-- Mean of a list of rationals (`np.mean`); division by zero yields `0`,
but every caller embedded here guards the empty case separately. -/
def avgQ (l : List ℚ) : ℚ := l.sum / (l.length : ℚ)

/-- The growth-rate list the scorecard averages:
`calculate_growth_metrics(vehicle_data, YOY, ['manufacturer'])`.
Every metric's `growth_rate` is set (never `None`), so the source's
`is not None` filter keeps the whole list. -/
def scorecardRates (g : List Record) : List ℚ :=
  (calculate_growth_metrics_yoy [Col.manufacturer] g).map (·.growth_rate)

/-- Growth momentum score `min(100, max(0, (avg_growth + 20) * 2))`
(src/analytics_engine.py line 358).  When the metric list is empty the source's
`np.mean([])` is NaN, and Python's `min(100, max(0, nan))` evaluates to `0`
(the left argument is kept since `nan > 0` is false); that value is produced
directly here. -/
def growthScore (g : List Record) : ℚ :=
  if scorecardRates g = [] then 0
  else min 100 (max 0 ((avgQ (scorecardRates g) + 20) * 2))

/-- The hardcoded size percentile
`33 if vehicle_type == '3W' else 67 if vehicle_type == '2W' else 100`. -/
def sizeScore (vt : String) : ℚ :=
  if vt = "3W" then 33 else if vt = "2W" then 67 else 100

/-- Competition intensity `max(0, 100 - hhi / 50)` (line 366); the source reads
the HHI from `calculate_market_concentration(vehicle_data)[vehicle_type]`,
which is the HHI of the (already filtered) per-category frame. -/
def competitionScore (g : List Record) (vt : String) : ℚ :=
  max 0 (100 - hhiOf (vtRows g vt) / 50)

/-- Number of distinct fuel types (`len(vehicle_data['fuel_type'].unique())`). -/
def fuelCount (g : List Record) : Nat := (uniq (g.map (·.fuel_type))).length

/-- Innovation score: `min(100, fuel_diversity * 20)` when the frame has a
`fuel_type` column, else the default `50` (lines 369-372). -/
def innovationScore (g : List Record) (hasFuel : Bool) : ℚ :=
  if hasFuel then min 100 ((fuelCount g : ℚ) * 20) else 50

/-- The unrounded weighted overall score
`growth_score * 0.4 + size_percentile * 0.3 + competition_score * 0.2 +
innovation_score * 0.1` (lines 375-376). -/
def overallRaw (g : List Record) (hasFuel : Bool) (vt : String) : ℚ :=
  growthScore g * (4/10) + sizeScore vt * (3/10)
    + competitionScore g vt * (2/10) + innovationScore g hasFuel * (1/10)

/-- The recommendation strings of src/analytics_engine.py lines 379-386,
selected by thresholds on the (unrounded) overall score. -/
def recommendationFor (score : ℚ) : String :=
  if 75 ≤ score then "Strong Buy - High growth potential with favorable market dynamics"
  else if 60 ≤ score then "Buy - Positive outlook with moderate risk"
  else if 40 ≤ score then "Hold - Mixed signals, monitor closely"
  else "Avoid - Challenging market conditions"

/-- One category's entry of the investment scorecard (lines 388-401).  The
`avg_yoy_growth` key metric is `None` when the category has no YoY metric (the
source would store NaN there). -/
structure ScoreEntry where
  overall_score : ℚ
  growth_momentum : ℚ
  market_size : ℚ
  competition_intensity : ℚ
  innovation_potential : ℚ
  recommendation : String
  avg_yoy_growth : Option ℚ
  total_market_size : Nat
  number_of_players : Nat
  market_leader : String
deriving DecidableEq

/-- `VahanAnalyticsEngine.generate_investment_scorecard`
(src/analytics_engine.py lines 340-403). -/
def generate_investment_scorecard (rows : List Record) (hasFuel : Bool) :
    List (String × ScoreEntry) :=
  (uniqueVts rows).map fun vt =>
    let g := vtRows rows vt
    (vt,
      { overall_score := pyRound1 (overallRaw g hasFuel vt)
        growth_momentum := pyRound1 (growthScore g)
        market_size := sizeScore vt
        competition_intensity := pyRound1 (competitionScore g vt)
        innovation_potential := pyRound1 (innovationScore g hasFuel)
        recommendation := recommendationFor (overallRaw g hasFuel vt)
        avg_yoy_growth :=
          if scorecardRates g = [] then none
          else some (pyRound2 (avgQ (scorecardRates g)))
        total_market_size := sumReg g
        number_of_players := (concFor (vtRows g vt)).total_manufacturers
        market_leader := (concFor (vtRows g vt)).market_leader })

/-- Distinct (year, quarter) pairs of a frame in chronological order, the
index of the source's `groupby(['year','quarter'])['registrations'].sum()`
(src/analytics_engine.py lines 422-423).  The sort key `year * 10 + quarter`
matches pandas' lexicographic (year, "Qn") order for the quarter digits 1-4
produced by the data pipeline. -/
def qpairs (g : List Record) : List (Nat × Nat) :=
  sortD (fun p : Nat × Nat => OrderDual.toDual (p.1 * 10 + p.2))
    (uniq (g.map (fun r => (r.year, r.quarter))))

/-- `quarterly_data['year'].min()`. -/
def minYear (g : List Record) : Nat :=
  match g.map (·.year) with
  | [] => 0
  | y :: ys => ys.foldl min y

/-- Registration sum of one (year, quarter) cell. -/
def qSum (g : List Record) (y q : Nat) : Nat :=
  sumReg (g.filter (fun r => r.year = y ∧ r.quarter = q))

/-- The sequential quarter index
`(year - year.min()) * 4 + quarter_digit - 1` (lines 424-425). -/
def periodIdx (g : List Record) (p : Nat × Nat) : Nat :=
  (p.1 - minYear g) * 4 + p.2 - 1

/-- The regression points (x = period index, y = quarterly sum). -/
def xys (g : List Record) : List (Nat × Nat) :=
  (qpairs g).map (fun p => (periodIdx g p, qSum g p.1 p.2))

/-- Least-squares slope of y against x, the closed form of the degree-1
`np.polyfit` performed at line 433 (for at least two distinct x values the
minimizer is unique and equals this expression). -/
def slopeOf (g : List Record) : ℚ :=
  let n : ℚ := ((xys g).length : ℚ)
  let sx : ℚ := ((xys g).map (fun p => (p.1 : ℚ))).sum
  let sy : ℚ := ((xys g).map (fun p => (p.2 : ℚ))).sum
  let sxy : ℚ := ((xys g).map (fun p => (p.1 : ℚ) * (p.2 : ℚ))).sum
  let sxx : ℚ := ((xys g).map (fun p => (p.1 : ℚ) ^ 2)).sum
  (n * sxy - sx * sy) / (n * sxx - sx ^ 2)

/-- Least-squares intercept (second coefficient of the same `np.polyfit`). -/
def interceptOf (g : List Record) : ℚ :=
  let n : ℚ := ((xys g).length : ℚ)
  let sx : ℚ := ((xys g).map (fun p => (p.1 : ℚ))).sum
  let sy : ℚ := ((xys g).map (fun p => (p.2 : ℚ))).sum
  (sy - slopeOf g * sx) / n

/-- The regression residuals `y - (trend_slope * x + intercept)` (line 443). -/
def residuals (g : List Record) : List ℚ :=
  (xys g).map (fun p => (p.2 : ℚ) - (slopeOf g * (p.1 : ℚ) + interceptOf g))

/-- The variance of the residuals: the square of the source's
`np.std(residuals)` (population standard deviation, line 444). -/
def varRes (g : List Record) : ℚ :=
  avgQ ((residuals g).map (fun r => (r - avgQ (residuals g)) ^ 2))

/-- Python `int(...)`: truncation toward zero. -/
def truncQ (q : ℚ) : ℤ := if 0 ≤ q then ⌊q⌋ else ⌈q⌉

/-- The last period index `x[-1]` of a category's history. -/
def lastXOf (g : List Record) : Nat := ((xys g).map (·.1)).getLastD 0

/-- One category's forecast entry (lines 446-452).  The source stores the
confidence interval `std_error * 1.96`, an irrational square root of a
rational; `confidence_sq` holds its square `variance * 1.96 ** 2`, which
determines it (both are nonnegative). -/
structure FC where
  forecast_values : List ℤ
  trend_slope : ℚ
  confidence_sq : ℚ
  last_actual : Nat
  growth_trend : String
deriving DecidableEq

/-- The per-category body of `forecast_registrations`: `None` when the
category has fewer than 4 quarterly points (`if len(quarterly_data) >= 4`,
line 428), so that the category is omitted from the result. -/
def forecastFor (g : List Record) (periods : Nat) : Option FC :=
  if 4 ≤ (qpairs g).length then
    some { forecast_values := (List.range periods).map (fun i =>
             max 0 (truncQ (slopeOf g * ((lastXOf g + 1 + i : ℕ) : ℚ) + interceptOf g)))
           trend_slope := slopeOf g
           confidence_sq := varRes g * (49/25) ^ 2
           last_actual := ((xys g).map (·.2)).getLastD 0
           growth_trend := if 0 < slopeOf g then "Positive" else "Negative" }
  else none

/-- `VahanAnalyticsEngine.forecast_registrations`
(src/analytics_engine.py lines 405-454). -/
def forecast_registrations (rows : List Record) (periods : Nat) :
    List (String × FC) :=
  (uniqueVts rows).filterMap fun vt =>
    (forecastFor (vtRows rows vt) periods).map (fun fc => (vt, fc))

/-- One row of the `growth_metrics` table as inserted by the YoY-by-manufacturer
statement of `VahanDatabaseManager.calculate_and_store_growth_metrics`
(src/database_manager.py lines 178-220).  The stored `entity_name` is
`manufacturer || ' (' || vehicle_type || ')'`; the two components are kept
separate here.  `growth_rate` is `NULL` (`none`) when the previous year's
total is not positive. -/
structure DbRow where
  manufacturer : String
  vehicle_type : String
  period : String
  current_value : Nat
  previous_value : Nat
  growth_rate : Option ℚ
  growth_absolute : ℤ
deriving DecidableEq

/-- The distinct (manufacturer, vehicle_type, year) triples: the rows of the
SQL CTE `yearly_data` (GROUP BY manufacturer, vehicle_type, year). -/
def mvYearKeys (rows : List Record) : List (String × String × Nat) :=
  uniq (rows.map (fun r => (r.manufacturer, r.vehicle_type, r.year)))

/-- `SUM(registrations)` for one (manufacturer, vehicle_type, year) group. -/
def mvySum (rows : List Record) (m v : String) (y : Nat) : Nat :=
  sumReg (rows.filter (fun r => r.manufacturer = m ∧ r.vehicle_type = v ∧ r.year = y))

/-- Whether the previous calendar year exists in `yearly_data` for the same
(manufacturer, vehicle_type): the join condition `y1.year = y2.year + 1`
combined with the `WHERE previous_value IS NOT NULL` filter. -/
def prevYearPresent (rows : List Record) (m v : String) (y : Nat) : Bool :=
  rows.any (fun r => r.manufacturer = m ∧ r.vehicle_type = v ∧ r.year + 1 = y)

/-- The YoY-by-manufacturer rows stored by
`VahanDatabaseManager.calculate_and_store_growth_metrics`
(src/database_manager.py lines 178-220): a LEFT JOIN of yearly sums against
the previous calendar year's sum for the same key, keeping only matched rows,
with `growth_rate = ROUND((cur - prev) * 100.0 / prev, 2)` when `prev > 0` and
`NULL` otherwise. -/
def db_yoy_manufacturer (rows : List Record) : List DbRow :=
  (mvYearKeys rows).filterMap fun t =>
    if prevYearPresent rows t.1 t.2.1 t.2.2 then
      let c := mvySum rows t.1 t.2.1 t.2.2
      let p := mvySum rows t.1 t.2.1 (t.2.2 - 1)
      some { manufacturer := t.1
             vehicle_type := t.2.1
             period := toString t.2.2
             current_value := c
             previous_value := p
             growth_rate :=
               if 0 < p then some (sqliteRound2 (((c : ℚ) - (p : ℚ)) * 100 / (p : ℚ)))
               else none
             growth_absolute := (c : ℤ) - (p : ℤ) }
    else none

/-- An investment theme, the `InvestmentTheme` dataclass of
src/investor_insights.py.  The `supporting_data` dictionary is display-only
and is omitted: its values restate quantities already exposed by the
definitions in this file (concentration fields, growth-metric fields), except
for the EV theme's CAGR, an irrational root that exact arithmetic cannot
carry; no claim reads `supporting_data`. -/
structure InvTheme where
  theme_name : String
  description : String
  investment_thesis : String
  risk_factors : List String
  potential_returns : String
deriving DecidableEq

/-- The electric-vehicle rows `df[df['fuel_type'] == 'Electric']`. -/
def evRows (rows : List Record) : List Record :=
  rows.filter (fun r => r.fuel_type = "Electric")

/-- Theme 1 of `identify_investment_themes` (src/investor_insights.py lines
99-122): emitted only when the frame has a `fuel_type` column, EV rows exist,
and the EV data spans more than one year. -/
def evThemes (rows : List Record) (hasFuel : Bool) : List InvTheme :=
  if hasFuel then
    if evRows rows ≠ [] then
      if 1 < (uniq ((evRows rows).map (·.year))).length then
        [{ theme_name := "Electric Vehicle Adoption"
           description := "Rapid transition to electric mobility across vehicle segments"
           investment_thesis := "Government incentives and environmental concerns driving massive shift to EVs"
           risk_factors := ["Charging infrastructure development lag",
                            "Battery technology and cost challenges",
                            "Policy changes affecting incentives"]
           potential_returns := "High (20-30% CAGR potential)" }]
      else []
    else []
  else []

/-- Theme 2 (lines 124-144): one consolidation theme per category whose HHI
exceeds 1500. -/
def consThemes (rows : List Record) : List InvTheme :=
  (calculate_market_concentration rows).filterMap fun p =>
    if 1500 < p.2.hhi_index then
      some { theme_name := p.1 ++ " Market Consolidation"
             description := "Increasing concentration in " ++ p.1 ++ " segment favoring market leaders"
             investment_thesis := "Market leaders gaining pricing power and economies of scale"
             risk_factors := ["Regulatory intervention in concentrated markets",
                              "New entrant disruption",
                              "Technology shifts favoring smaller players"]
             potential_returns := "Medium-High (15-25% CAGR for leaders)" }
    else none

/-- Theme 3 (lines 146-167): at most one high-growth theme, for the single
highest vehicle-type YoY metric above 15%.  Python's `max(..., key=...)` keeps
the first of several equal maxima, as does this fold. -/
def growthThemes (rows : List Record) : List InvTheme :=
  let high := (calculate_growth_metrics_yoy [Col.vehicleType] rows).filter
    (fun m => 15 < m.growth_rate)
  match high with
  | [] => []
  | h :: t =>
    let fastest := t.foldl (fun best m => if best.growth_rate < m.growth_rate then m else best) h
    [{ theme_name := "High-Growth Segment Opportunity"
       description := "Exceptional growth in " ++ fastest.entity ++ " segment"
       investment_thesis := "Structural demand drivers supporting sustained high growth"
       risk_factors := ["Growth rate normalization as market matures",
                        "Increased competition as segment attracts entrants",
                        "Economic downturn impact on discretionary purchases"]
       potential_returns := "High (25-40% CAGR potential)" }]

/-- `InvestorInsightsGenerator.identify_investment_themes`
(src/investor_insights.py lines 87-169). -/
def identify_investment_themes (rows : List Record) (hasFuel : Bool) : List InvTheme :=
  evThemes rows hasFuel ++ consThemes rows ++ growthThemes rows

/-- Does `small` occur at the start of `big`? -/
def listStartsWith : List Char → List Char → Bool
  | [], _ => true
  | _ :: _, [] => false
  | a :: as, b :: bs => a = b && listStartsWith as bs

/-- Does `needle` occur anywhere in the second list? -/
def listContainsSub (needle : List Char) : List Char → Bool
  | [] => listStartsWith needle []
  | c :: t => listStartsWith needle (c :: t) || listContainsSub needle t

/-- Substring test, Python's `needle in hay`. -/
def strContains (hay needle : String) : Bool :=
  listContainsSub needle.toList hay.toList

/-- Insert thousands separators into a reversed digit list. -/
def commaChunks : List Char → List Char
  | a :: b :: c :: d :: rest => a :: b :: c :: ',' :: commaChunks (d :: rest)
  | l => l

/-- Python's `f"{n:,}"` for a natural number. -/
def commaFmt (n : Nat) : String :=
  String.mk (commaChunks (toString n).toList.reverse).reverse

/-- Python's `f"{x:.1f}"` (round half to even, one decimal).  The corner case
`-0.0`, which Python prints with a sign, is printed here as `0.0`; no claim
depends on it. -/
def fmt1 (x : ℚ) : String :=
  let n := roundHalfEven (x * 10)
  (if n < 0 then "-" else "") ++ toString (n.natAbs / 10) ++ "." ++ toString (n.natAbs % 10)

/-- `InvestorInsightsGenerator._classify_market_size`
(src/investor_insights.py lines 272-279). -/
def classifyMarketSize (n : Nat) : String :=
  if 10000000 < n then "Large Market (>10M registrations)"
  else if 1000000 < n then "Medium Market (1-10M registrations)"
  else "Small Market (<1M registrations)"

/-- `InvestorInsightsGenerator._get_concentration_summary` (lines 281-289). -/
def concentrationSummary (cm : List (String × Conc)) : String :=
  let structures := cm.map (·.2.market_structure)
  if structures.all (fun s => strContains s "Highly Concentrated") then
    "All segments highly concentrated"
  else if structures.all (fun s => strContains s "Competitive") then
    "All segments competitive"
  else "Mixed concentration levels across segments"

/-- `InvestorInsightsGenerator._generate_investment_outlook` (lines 291-303). -/
def investmentOutlook (rows : List Record) (hasFuel : Bool) : String :=
  let avg := avgQ ((generate_investment_scorecard rows hasFuel).map (·.2.overall_score))
  if 75 ≤ avg then "Positive - Strong growth fundamentals with favorable market dynamics"
  else if 60 ≤ avg then "Cautiously Optimistic - Good opportunities with selective approach needed"
  else if 40 ≤ avg then "Neutral - Mixed signals requiring careful analysis"
  else "Cautious - Challenging market conditions with limited opportunities"

/-- `InvestorInsightsGenerator._assess_market_risks` (lines 305-330). -/
def marketRisks (rows : List Record) : List String :=
  let high := ((calculate_market_concentration rows).filter
    (fun p => 2500 < p.2.hhi_index)).map (·.1)
  let declining := ((calculate_growth_metrics_yoy [Col.vehicleType] rows).filter
    (fun m => m.growth_rate < -5)).map (·.entity)
  (if high ≠ [] then
    ["High concentration risk in " ++ String.intercalate ", " high ++ " segments"]
   else [])
  ++ (if declining ≠ [] then ["Declining demand in " ++ String.intercalate ", " declining]
      else [])
  ++ ["Economic downturn impact on vehicle purchases",
      "Regulatory changes affecting vehicle standards",
      "Technology disruption from new mobility solutions"]

/-- The `market_overview` sub-dictionary of the executive summary. -/
structure MarketOverview where
  total_registrations : String
  yoy_growth : String
  total_manufacturers : Nat
  dominant_category : String
  market_size_category : String
deriving DecidableEq

/-- The dictionary returned by `generate_executive_summary`. -/
structure ExecSummary where
  market_overview : MarketOverview
  key_highlights : List String
  investment_outlook : String
  risk_assessment : List String
deriving DecidableEq

/-- `df['year'].max()`. -/
def maxYearOf (rows : List Record) : Nat :=
  match rows.map (·.year) with
  | [] => 0
  | y :: ys => ys.foldl max y

/-- `InvestorInsightsGenerator.generate_executive_summary`
(src/investor_insights.py lines 27-85).  The empty frame takes the dedicated
placeholder branch (lines 37-49). -/
def generate_executive_summary (rows : List Record) (hasFuel : Bool) : ExecSummary :=
  if rows = [] then
    { market_overview :=
        { total_registrations := "0"
          yoy_growth := "N/A"
          total_manufacturers := 0
          dominant_category := "No data available"
          market_size_category := "No data available" }
      key_highlights := ["No data available for the selected filters"]
      investment_outlook := "No data available"
      risk_assessment := ["No data available"] }
  else
    let total := sumReg rows
    let manuCount := (uniq (rows.map (·.manufacturer))).length
    let latest := maxYearOf rows
    let cur := sumReg (rows.filter (fun r => r.year = latest))
    let prev := sumReg (rows.filter (fun r => r.year = latest - 1))
    let yoy : ℚ := if 0 < prev then ((cur : ℚ) - (prev : ℚ)) / (prev : ℚ) * 100 else 0
    let breakdown := sortD (fun p : String × Nat => p.2)
      ((uniqueVts rows).map (fun vt => (vt, sumReg (vtRows rows vt))))
    let dominant := (breakdown.headD ("No data", 0)).1
    let topVal := (breakdown.headD ("No data", 0)).2
    { market_overview :=
        { total_registrations := commaFmt total
          yoy_growth := fmt1 yoy ++ "%"
          total_manufacturers := manuCount
          dominant_category := dominant
          market_size_category := classifyMarketSize total }
      key_highlights :=
        ["Market grew " ++ fmt1 yoy ++ "% YoY with " ++ commaFmt total
           ++ " total registrations",
         dominant ++ " segment dominates with " ++ commaFmt topVal ++ " registrations",
         "Market features " ++ toString manuCount
           ++ " active manufacturers across all segments",
         "Concentration varies by segment: "
           ++ concentrationSummary (calculate_market_concentration rows)]
      investment_outlook := investmentOutlook rows hasFuel
      risk_assessment := marketRisks rows }

-- Concrete inputs used by scenario theorems, witnesses and counterexamples.
def demoRows : List Record :=
  [{ year := 2020, quarter := 1, vehicle_type := "2W", manufacturer := "A",
     registrations := 1000, fuel_type := "" },
   { year := 2021, quarter := 1, vehicle_type := "2W", manufacturer := "A",
     registrations := 1500, fuel_type := "" }]

def rows4 : List Record :=
  [{ year := 2023, quarter := 1, vehicle_type := "2W", manufacturer := "M1",
     registrations := 40, fuel_type := "" },
   { year := 2023, quarter := 1, vehicle_type := "2W", manufacturer := "M2",
     registrations := 30, fuel_type := "" },
   { year := 2023, quarter := 1, vehicle_type := "2W", manufacturer := "M3",
     registrations := 20, fuel_type := "" },
   { year := 2023, quarter := 1, vehicle_type := "2W", manufacturer := "M4",
     registrations := 10, fuel_type := "" }]

def rows5 : List Record :=
  [{ year := 2020, quarter := 1, vehicle_type := "4W", manufacturer := "A",
     registrations := 10000, fuel_type := "" },
   { year := 2021, quarter := 1, vehicle_type := "4W", manufacturer := "A",
     registrations := 12995, fuel_type := "" }]

def entry5 : ScoreEntry :=
  { overall_score := 75, growth_momentum := 999/10, market_size := 100,
    competition_intensity := 0, innovation_potential := 50,
    recommendation := "Buy - Positive outlook with moderate risk",
    avg_yoy_growth := some (2995/100), total_market_size := 22995,
    number_of_players := 1, market_leader := "A" }

def rows9 : List Record :=
  [{ year := 2020, quarter := 1, vehicle_type := "2W", manufacturer := "M2",
     registrations := 100, fuel_type := "" },
   { year := 2021, quarter := 1, vehicle_type := "2W", manufacturer := "M2",
     registrations := 200, fuel_type := "" },
   { year := 2020, quarter := 1, vehicle_type := "3W", manufacturer := "M3",
     registrations := 100, fuel_type := "" },
   { year := 2021, quarter := 1, vehicle_type := "3W", manufacturer := "M3",
     registrations := 200, fuel_type := "" },
   { year := 2020, quarter := 1, vehicle_type := "4W", manufacturer := "M4",
     registrations := 100, fuel_type := "" },
   { year := 2021, quarter := 1, vehicle_type := "4W", manufacturer := "M4",
     registrations := 200, fuel_type := "" }]

def rows10 : List Record :=
  [{ year := 2019, quarter := 1, vehicle_type := "2W", manufacturer := "A",
     registrations := 1000, fuel_type := "" },
   { year := 2021, quarter := 1, vehicle_type := "2W", manufacturer := "A",
     registrations := 1500, fuel_type := "" }]

def rows8 : List Record :=
  [{ year := 2022, quarter := 1, vehicle_type := "2W", manufacturer := "A",
     registrations := 100, fuel_type := "" },
   { year := 2022, quarter := 2, vehicle_type := "2W", manufacturer := "A",
     registrations := 100, fuel_type := "" },
   { year := 2022, quarter := 3, vehicle_type := "2W", manufacturer := "A",
     registrations := 100, fuel_type := "" },
   { year := 2022, quarter := 4, vehicle_type := "2W", manufacturer := "A",
     registrations := 100, fuel_type := "" }]

def rows6 : List Record :=
  [{ year := 2020, quarter := 1, vehicle_type := "2W", manufacturer := "A",
     registrations := 0, fuel_type := "" },
   { year := 2021, quarter := 1, vehicle_type := "2W", manufacturer := "A",
     registrations := 5, fuel_type := "" }]

section RankLemmas

theorem assignRanks_map_stripRank (l : List GM) :
    (assignRanks l).map stripRank
      = (sortD (fun m : GM => m.growth_rate) l).map stripRank := by
  unfold assignRanks
  rw [List.map_map]
  have h : (stripRank ∘ fun p : Nat × GM => { p.2 with rank := p.1 + 1 })
      = stripRank ∘ Prod.snd := rfl
  rw [h, ← List.map_map, List.enum_map_snd]

theorem assignRanks_ranks (l : List GM) :
    (assignRanks l).map (·.rank) = List.range' 1 l.length := by
  unfold assignRanks
  rw [List.map_map]
  have h1 : ((fun m : GM => m.rank) ∘ fun p : Nat × GM => { p.2 with rank := p.1 + 1 })
      = ((fun i => i + 1) ∘ Prod.fst) := rfl
  rw [h1, ← List.map_map, List.enum_map_fst,
    (sortD_perm (fun m : GM => m.growth_rate) l).length_eq,
    List.range'_eq_map_range]
  exact List.map_congr_left fun i _ => Nat.add_comm 1 i |>.symm ▸ rfl

theorem assignRanks_rates (l : List GM) :
    (assignRanks l).map (·.growth_rate)
      = (sortD (fun m : GM => m.growth_rate) l).map (·.growth_rate) := by
  unfold assignRanks
  rw [List.map_map]
  have h : ((fun m : GM => m.growth_rate) ∘ fun p : Nat × GM => { p.2 with rank := p.1 + 1 })
      = (fun m : GM => m.growth_rate) ∘ Prod.snd := rfl
  rw [h, ← List.map_map, List.enum_map_snd]

theorem filter_stripRank (X : List GM) (q : ℚ) :
    (X.map stripRank).filter (fun m => m.growth_rate = q)
      = (X.filter (fun m => m.growth_rate = q)).map stripRank := by
  induction X with
  | nil => rfl
  | cons a as ih =>
    by_cases h : a.growth_rate = q <;>
      simp [List.filter_cons, stripRank, h, ih]

end RankLemmas

/-- C2: for every list of growth metrics, the final ranking pass of
`calculate_growth_metrics` (embedded as `assignRanks`) produces a list whose
ranks are exactly 1..N in order, which is sorted by `growth_rate` descending,
which is a permutation of the input metrics (ranks aside), and in which
metrics of equal growth rate keep their original relative order (the stable
filter equation). -/
theorem c2_rank_assignment (l : List GM) :
    (assignRanks l).map (·.rank) = List.range' 1 l.length
    ∧ ((assignRanks l).map (·.growth_rate)).Pairwise (fun a b => b ≤ a)
    ∧ List.Perm ((assignRanks l).map stripRank) (l.map stripRank)
    ∧ ∀ q : ℚ, ((assignRanks l).map stripRank).filter (fun m => m.growth_rate = q)
        = (l.map stripRank).filter (fun m => m.growth_rate = q) := by
  refine ⟨assignRanks_ranks l, ?_, ?_, ?_⟩
  · rw [assignRanks_rates]
    exact List.pairwise_map.2 (sortD_pairwise _ l)
  · rw [assignRanks_map_stripRank]
    exact (sortD_perm _ l).map stripRank
  · intro q
    rw [assignRanks_map_stripRank, filter_stripRank, filter_stripRank]
    exact congrArg (List.map stripRank)
      (sortD_filter (fun m : GM => m.growth_rate) l q)

theorem mem_yoy_of_mem_group {gb : List Col} {rows : List Record} {k : List String}
    {gm : GM} (h : gm ∈ groupMetrics gb rows k) :
    stripRank gm ∈ (calculate_growth_metrics_yoy gb rows).map stripRank := by
  have hzip := h
  simp only [groupMetrics, List.mem_filterMap] at hzip
  obtain ⟨pc, hpc, -⟩ := hzip
  have hy1 : pc.1 ∈ groupYears (groupRows gb rows k) := by
    rcases pc with ⟨a, b⟩
    exact (List.of_mem_zip hpc).1
  have hyu : pc.1 ∈ (groupRows gb rows k).map (·.year) :=
    mem_uniq.1 ((sortD_perm _ _).mem_iff.1 hy1)
  obtain ⟨r, hr, -⟩ := List.mem_map.1 hyu
  have hrk : keyOf gb r = k := by
    have := List.mem_filter.1 hr
    simpa using this.2
  have hrrows : r ∈ rows := (List.mem_filter.1 hr).1
  have hk : k ∈ sortedKeys gb rows := by
    unfold sortedKeys
    exact (sortK_perm _).mem_iff.2 (mem_uniq.2 (hrk ▸ List.mem_map_of_mem (keyOf gb) hrrows))
  have hflat : gm ∈ (sortedKeys gb rows).flatMap (groupMetrics gb rows) :=
    List.mem_flatMap.2 ⟨k, hk, h⟩
  have hmap : stripRank gm
      ∈ ((sortedKeys gb rows).flatMap (groupMetrics gb rows)).map stripRank :=
    List.mem_map_of_mem stripRank hflat
  unfold calculate_growth_metrics_yoy
  rw [assignRanks_map_stripRank]
  exact ((sortD_perm (fun m : GM => m.growth_rate) _).map stripRank).mem_iff.2 hmap

/-- C7: on the empty record set every aggregate function embedded here
returns its well-defined empty or placeholder result (no exception path
exists: all embeddings are total): the growth calculator, the concentration
map, the scorecard, the forecaster, the theme builder and the store's
recompute all return empty collections, and `generate_executive_summary`
returns the fixed placeholder shape with
`market_overview.total_registrations = "0"` and
`investment_outlook = "No data available"`. -/
theorem c7_empty_dataset :
    (∀ gb : List Col, calculate_growth_metrics_yoy gb [] = [])
    ∧ calculate_market_concentration [] = []
    ∧ (∀ b : Bool, generate_investment_scorecard [] b = [])
    ∧ (∀ n : Nat, forecast_registrations [] n = [])
    ∧ (∀ b : Bool, identify_investment_themes [] b = [])
    ∧ db_yoy_manufacturer [] = []
    ∧ (∀ b : Bool, generate_executive_summary [] b =
        { market_overview :=
            { total_registrations := "0"
              yoy_growth := "N/A"
              total_manufacturers := 0
              dominant_category := "No data available"
              market_size_category := "No data available" }
          key_highlights := ["No data available for the selected filters"]
          investment_outlook := "No data available"
          risk_assessment := ["No data available"] }) := by
  refine ⟨fun gb => rfl, rfl, fun b => rfl, fun n => rfl, ?_, rfl, fun b => rfl⟩
  intro b
  cases b <;> rfl

theorem evThemes_length (rows : List Record) (hasFuel : Bool) :
    (evThemes rows hasFuel).length
      = if hasFuel ∧ evRows rows ≠ []
            ∧ 1 < (uniq ((evRows rows).map (·.year))).length then 1 else 0 := by
  unfold evThemes
  cases hasFuel with
  | false => simp
  | true =>
    by_cases h1 : evRows rows ≠ []
    · by_cases h2 : 1 < (uniq ((evRows rows).map (·.year))).length
      · simp [h1, h2]
      · simp [h1, h2]
    · simp [h1]

theorem consThemes_length (rows : List Record) :
    (consThemes rows).length
      = ((calculate_market_concentration rows).filter
          (fun p => 1500 < p.2.hhi_index)).length := by
  unfold consThemes
  generalize calculate_market_concentration rows = l
  induction l with
  | nil => rfl
  | cons a as ih =>
    by_cases h : 1500 < a.2.hhi_index <;>
      simp [List.filterMap_cons, List.filter_cons, h, ih]

theorem growthThemes_length (rows : List Record) :
    (growthThemes rows).length
      = if ((calculate_growth_metrics_yoy [Col.vehicleType] rows).filter
          (fun m => 15 < m.growth_rate)) = [] then 0 else 1 := by
  simp only [growthThemes]
  rcases h : (calculate_growth_metrics_yoy [Col.vehicleType] rows).filter
      (fun m => 15 < m.growth_rate) with _ | ⟨a, t⟩ <;> rw [h] <;> simp

/-- C9 counterexample: a record set with three fully concentrated categories
and >15% growth yields one consolidation theme per category plus a high-growth
theme — four entries, refuting the claimed bound of three. -/
theorem c9_counterexample : 3 < (identify_investment_themes rows9 false).length := by
  decide

/-- C9 (amended): `identify_investment_themes` returns at most one EV-adoption
theme (exactly when a fuel-type column with Electric rows spanning more than
one year exists), exactly one market-consolidation theme per category with
HHI > 1500 (so possibly more than one), and at most one high-growth theme
(exactly when some vehicle-type YoY metric exceeds 15%); the total count is
the sum of these three contributions, bounded by 2 plus the number of
concentrated categories rather than by 3. -/
theorem c9_theme_counts (rows : List Record) (hasFuel : Bool) :
    (identify_investment_themes rows hasFuel).length
      = (if hasFuel ∧ evRows rows ≠ []
            ∧ 1 < (uniq ((evRows rows).map (·.year))).length then 1 else 0)
        + ((calculate_market_concentration rows).filter
            (fun p => 1500 < p.2.hhi_index)).length
        + (if ((calculate_growth_metrics_yoy [Col.vehicleType] rows).filter
            (fun m => 15 < m.growth_rate)) = [] then 0 else 1) := by
  unfold identify_investment_themes
  rw [List.length_append, List.length_append, evThemes_length, consThemes_length,
    growthThemes_length]

theorem mem_forecast_iff {rows : List Record} {periods : Nat} {vt : String} {fc : FC} :
    (vt, fc) ∈ forecast_registrations rows periods
      ↔ vt ∈ uniqueVts rows ∧ forecastFor (vtRows rows vt) periods = some fc := by
  unfold forecast_registrations
  rw [List.mem_filterMap]
  constructor
  · rintro ⟨vt', hvt', hF⟩
    rcases Option.map_eq_some'.1 hF with ⟨fc', hfc', heq⟩
    injection heq with h1 h2
    subst h1
    subst h2
    exact ⟨hvt', hfc'⟩
  · rintro ⟨hvt, hfc⟩
    exact ⟨vt, hvt, by rw [hfc]; rfl⟩

/-- C8: `forecast_registrations` contains a category exactly when it occurs in
the data with at least 4 distinct historical quarterly points (fewer-point
categories are silently omitted, never an error); each included entry carries
exactly `periods` forecast values, each the fitted-line projection truncated
to an integer and floored at 0 (hence non-negative), and its confidence
interval is `1.96` times the standard deviation of the regression residuals
(stated on squares: `confidence_sq = variance * 1.96 ** 2`). -/
theorem c8_forecast (rows : List Record) (periods : Nat) (vt : String) :
    ((∃ fc, (vt, fc) ∈ forecast_registrations rows periods)
       ↔ vt ∈ uniqueVts rows ∧ 4 ≤ (qpairs (vtRows rows vt)).length)
    ∧ (∀ fc, (vt, fc) ∈ forecast_registrations rows periods →
        fc.forecast_values.length = periods
        ∧ (∀ v ∈ fc.forecast_values, 0 ≤ v
            ∧ ∃ i < periods, v = max 0 (truncQ (slopeOf (vtRows rows vt)
                * ((lastXOf (vtRows rows vt) + 1 + i : ℕ) : ℚ)
                + interceptOf (vtRows rows vt))))
        ∧ fc.confidence_sq = varRes (vtRows rows vt) * (49/25) ^ 2
        ∧ fc.trend_slope = slopeOf (vtRows rows vt)) := by
  constructor
  · constructor
    · rintro ⟨fc, hmem⟩
      obtain ⟨hvt, hsome⟩ := mem_forecast_iff.1 hmem
      refine ⟨hvt, ?_⟩
      by_cases hlen : 4 ≤ (qpairs (vtRows rows vt)).length
      · exact hlen
      · rw [forecastFor, if_neg hlen] at hsome
        cases hsome
    · rintro ⟨hvt, hlen⟩
      have h : ∃ fc, forecastFor (vtRows rows vt) periods = some fc := by
        rw [forecastFor, if_pos hlen]
        exact ⟨_, rfl⟩
      obtain ⟨fc, hfc⟩ := h
      exact ⟨fc, mem_forecast_iff.2 ⟨hvt, hfc⟩⟩
  · intro fc hmem
    obtain ⟨hvt, hsome⟩ := mem_forecast_iff.1 hmem
    by_cases hlen : 4 ≤ (qpairs (vtRows rows vt)).length
    · rw [forecastFor, if_pos hlen] at hsome
      have hfc := (Option.some.inj hsome).symm
      subst hfc
      refine ⟨by simp, ?_, rfl, rfl⟩
      intro v hv
      simp only [List.mem_map, List.mem_range] at hv
      obtain ⟨i, hi, rfl⟩ := hv
      exact ⟨le_max_left 0 _, i, hi, rfl⟩
    · rw [forecastFor, if_neg hlen] at hsome
      cases hsome

/-- Witness for C8: the forecast of a flat four-quarter history has exactly 4
values. -/
theorem c8_forecast_witness :
    ({ forecast_values := [100, 100, 100, 100], trend_slope := 0,
       confidence_sq := 0, last_actual := 100,
       growth_trend := "Negative" } : FC).forecast_values.length = 4 :=
  ((c8_forecast rows8 4 "2W").2 _ (by decide)).1

theorem groupYears_sorted (g : List Record) :
    (groupYears g).Pairwise (fun a b => a ≤ b) := by
  have h := sortD_pairwise (fun y : Nat => OrderDual.toDual y) (uniq (g.map (·.year)))
  exact h.imp (fun hab => OrderDual.toDual_le_toDual.1 hab)

theorem groupYears_nodup (g : List Record) : (groupYears g).Nodup :=
  ((sortD_perm (fun y : Nat => OrderDual.toDual y) _).nodup_iff).2
    (nodup_uniq _)

theorem mem_groupYears {g : List Record} {y : Nat} :
    y ∈ groupYears g ↔ y ∈ g.map (·.year) := by
  unfold groupYears
  rw [(sortD_perm (fun y : Nat => OrderDual.toDual y) _).mem_iff]
  exact mem_uniq

theorem consecutive_mem_zip {l : List Nat} (hs : l.Pairwise (· ≤ ·)) (hnd : l.Nodup)
    {a : Nat} (ha : a ∈ l) (hb : a + 1 ∈ l) : (a, a + 1) ∈ l.zip l.tail := by
  induction l with
  | nil => cases ha
  | cons x xs ih =>
    rcases List.pairwise_cons.1 hs with ⟨hx, hxs⟩
    rcases List.nodup_cons.1 hnd with ⟨hnx, hnxs⟩
    rcases List.mem_cons.1 ha with rfl | hax
    · have hbx : a + 1 ∈ xs := by
        rcases List.mem_cons.1 hb with h1 | h1
        · omega
        · exact h1
      rcases xs with _ | ⟨z, zs⟩
      · cases hbx
      · have hz1 : z ≤ a + 1 := by
          rcases List.mem_cons.1 hbx with h2 | h2
          · omega
          · exact (List.pairwise_cons.1 hxs).1 _ h2
        have hz2 : a < z := by
          have hle := hx z (List.mem_cons_self z zs)
          have hne : z ≠ a := fun h => hnx (h ▸ List.mem_cons_self z zs)
          omega
        have hz : z = a + 1 := by omega
        subst hz
        exact List.mem_cons_self _ _
    · have hb' : a + 1 ∈ xs := by
        rcases List.mem_cons.1 hb with h1 | h1
        · have := hx a hax
          omega
        · exact h1
      have hzip := ih hxs hnxs hax hb'
      rcases xs with _ | ⟨z, zs⟩
      · cases hax
      · exact List.mem_cons_of_mem _ hzip

theorem groupRows_mv (rows : List Record) (m v : String) :
    groupRows [Col.manufacturer, Col.vehicleType] rows [m, v]
      = rows.filter (fun r => r.manufacturer = m ∧ r.vehicle_type = v) := by
  unfold groupRows
  apply List.filter_congr
  intro r _
  simp [keyOf, colVal]

theorem yearSum_mv (rows : List Record) (m v : String) (y : Nat) :
    yearSum (groupRows [Col.manufacturer, Col.vehicleType] rows [m, v]) y
      = mvySum rows m v y := by
  unfold yearSum mvySum
  rw [groupRows_mv, List.filter_filter]
  congr 1
  apply List.filter_congr
  intro r _
  by_cases h1 : r.year = y <;> by_cases h2 : r.manufacturer = m <;>
    by_cases h3 : r.vehicle_type = v <;> simp [h1, h2, h3]

/-- C10 counterexample: for a group whose years are 2019 and 2021 (2020
missing), the in-memory calculator emits a YoY metric for the adjacent present
years while the store's self-join on `year = year + 1` stores nothing, so the
two do not produce the same (entity, period) pairs. -/
theorem c10_counterexample :
    (calculate_growth_metrics_yoy [Col.manufacturer, Col.vehicleType] rows10).length = 1
    ∧ db_yoy_manufacturer rows10 = [] := by
  exact ⟨by decide, by decide⟩

/-- C10 (amended): the two implementations agree exactly on calendar-
consecutive year pairs with a positive previous sum: whenever years `y - 1`
and `y` are both present for a (manufacturer, category) group and the
previous sum is positive, both emit a row for period `y` with equal current
and previous values, whose growth rates round the same exact quotient under
each side's rounding rule (Python half-to-even in memory, SQLite
half-away-from-zero in the store).  Outside this common case they differ: the
in-memory calculator also bridges gaps in the year sequence
(`c10_counterexample`), and the store also emits null-rate rows when the
previous year's sum is zero. -/
theorem c10_agreement (rows : List Record) (m v : String) (y : Nat)
    (hcur : ∃ r ∈ rows, r.manufacturer = m ∧ r.vehicle_type = v ∧ r.year = y)
    (hprev : ∃ r ∈ rows, r.manufacturer = m ∧ r.vehicle_type = v ∧ r.year + 1 = y)
    (hpos : 0 < mvySum rows m v (y - 1)) :
    (∃ gm ∈ calculate_growth_metrics_yoy [Col.manufacturer, Col.vehicleType] rows,
        gm.entity = entityName [m, v]
        ∧ gm.period = toString y
        ∧ gm.current_value = mvySum rows m v y
        ∧ gm.previous_value = mvySum rows m v (y - 1)
        ∧ gm.growth_rate = pyRound2 (((mvySum rows m v y : ℚ)
            - (mvySum rows m v (y - 1) : ℚ)) / (mvySum rows m v (y - 1) : ℚ) * 100))
    ∧ (∃ dr ∈ db_yoy_manufacturer rows,
        dr.manufacturer = m ∧ dr.vehicle_type = v ∧ dr.period = toString y
        ∧ dr.current_value = mvySum rows m v y
        ∧ dr.previous_value = mvySum rows m v (y - 1)
        ∧ dr.growth_rate = some (sqliteRound2 (((mvySum rows m v y : ℚ)
            - (mvySum rows m v (y - 1) : ℚ)) * 100 / (mvySum rows m v (y - 1) : ℚ)))) := by
  obtain ⟨rc, hrc, hrcm, hrcv, hrcy⟩ := hcur
  obtain ⟨rp, hrp, hrpm, hrpv, hrpy⟩ := hprev
  have hy1 : 1 ≤ y := by omega
  constructor
  · -- in-memory side
    set g := groupRows [Col.manufacturer, Col.vehicleType] rows [m, v] with hg
    have hkc : keyOf [Col.manufacturer, Col.vehicleType] rc = [m, v] := by
      simp [keyOf, colVal, hrcm, hrcv]
    have hkp : keyOf [Col.manufacturer, Col.vehicleType] rp = [m, v] := by
      simp [keyOf, colVal, hrpm, hrpv]
    have hcy : y ∈ groupYears g := by
      rw [mem_groupYears]
      exact List.mem_map.2 ⟨rc, List.mem_filter.2 ⟨hrc, by simp [hkc]⟩, hrcy⟩
    have hpy : y - 1 ∈ groupYears g := by
      rw [mem_groupYears]
      exact List.mem_map.2 ⟨rp, List.mem_filter.2 ⟨hrp, by simp [hkp]⟩, by omega⟩
    have hzip : (y - 1, (y - 1) + 1) ∈ (groupYears g).zip (groupYears g).tail :=
      consecutive_mem_zip (groupYears_sorted g) (groupYears_nodup g) hpy
        (by rw [show y - 1 + 1 = y from by omega]; exact hcy)
    have hposg : 0 < yearSum g (y - 1) := by
      rw [hg, yearSum_mv]
      exact hpos
    have hgm : ({ entity := entityName [m, v]
                  period := toString ((y - 1) + 1)
                  current_value := yearSum g ((y - 1) + 1)
                  previous_value := yearSum g (y - 1)
                  growth_rate := pyRound2 (((yearSum g ((y - 1) + 1) : ℚ)
                    - (yearSum g (y - 1) : ℚ)) / (yearSum g (y - 1) : ℚ) * 100)
                  growth_absolute := (yearSum g ((y - 1) + 1) : ℤ)
                    - (yearSum g (y - 1) : ℤ)
                  rank := 0 } : GM)
        ∈ groupMetrics [Col.manufacturer, Col.vehicleType] rows [m, v] := by
      simp only [groupMetrics, List.mem_filterMap]
      exact ⟨(y - 1, (y - 1) + 1), hzip, by rw [if_pos hposg]⟩
    have hmem := mem_yoy_of_mem_group hgm
    obtain ⟨gm, hgmmem, hstrip⟩ := List.mem_map.1 hmem
    refine ⟨gm, hgmmem, ?_, ?_, ?_, ?_, ?_⟩
    · have := congrArg GM.entity hstrip
      simpa [stripRank] using this
    · have := congrArg GM.period hstrip
      rw [show y - 1 + 1 = y from by omega] at this
      simpa [stripRank] using this
    · have := congrArg GM.current_value hstrip
      rw [show y - 1 + 1 = y from by omega, hg, yearSum_mv rows m v y,
        yearSum_mv rows m v (y - 1)] at this
      simpa [stripRank] using this
    · have := congrArg GM.previous_value hstrip
      rw [show y - 1 + 1 = y from by omega, hg, yearSum_mv rows m v y,
        yearSum_mv rows m v (y - 1)] at this
      simpa [stripRank] using this
    · have := congrArg GM.growth_rate hstrip
      rw [show y - 1 + 1 = y from by omega, hg, yearSum_mv rows m v y,
        yearSum_mv rows m v (y - 1)] at this
      simpa [stripRank] using this
  · -- store side
    have hkey : (m, v, y) ∈ mvYearKeys rows := by
      unfold mvYearKeys
      rw [mem_uniq]
      exact List.mem_map.2 ⟨rc, hrc, by rw [hrcm, hrcv, hrcy]⟩
    have hpp : prevYearPresent rows m v y = true := by
      unfold prevYearPresent
      rw [List.any_eq_true]
      exact ⟨rp, hrp, by simp [hrpm, hrpv, hrpy]⟩
    refine ⟨{ manufacturer := m, vehicle_type := v, period := toString y
              current_value := mvySum rows m v y
              previous_value := mvySum rows m v (y - 1)
              growth_rate := if 0 < mvySum rows m v (y - 1) then
                  some (sqliteRound2 (((mvySum rows m v y : ℚ)
                    - (mvySum rows m v (y - 1) : ℚ)) * 100 / (mvySum rows m v (y - 1) : ℚ)))
                else none
              growth_absolute := (mvySum rows m v y : ℤ)
                - (mvySum rows m v (y - 1) : ℤ) }, ?_, rfl, rfl, rfl, rfl, rfl, ?_⟩
    · unfold db_yoy_manufacturer
      rw [List.mem_filterMap]
      exact ⟨(m, v, y), hkey, by rw [if_pos hpp]⟩
    · rw [if_pos hpos]

/-- Witness for C10: the agreement applied to the two-year history
`demoRows` (years 2020 and 2021). -/
theorem c10_agreement_witness :
    ∃ dr ∈ db_yoy_manufacturer demoRows,
      dr.manufacturer = "A" ∧ dr.vehicle_type = "2W" ∧ dr.period = toString 2021
      ∧ dr.current_value = mvySum demoRows "A" "2W" 2021
      ∧ dr.previous_value = mvySum demoRows "A" "2W" (2021 - 1)
      ∧ dr.growth_rate = some (sqliteRound2 (((mvySum demoRows "A" "2W" 2021 : ℚ)
          - (mvySum demoRows "A" "2W" (2021 - 1) : ℚ)) * 100
          / (mvySum demoRows "A" "2W" (2021 - 1) : ℚ))) :=
  (c10_agreement demoRows "A" "2W" 2021 (by decide) (by decide) (by decide)).2

section ShareLemmas

theorem sumReg_filter_comp (g : List Record) (p q : Record → Bool)
    (h : ∀ r, q r = !(p r)) :
    sumReg (g.filter p) + sumReg (g.filter q) = sumReg g := by
  induction g with
  | nil => rfl
  | cons a as ih =>
    have ha := h a
    by_cases hp : p a <;>
      simp [List.filter_cons, hp, ha, sumReg, List.map_cons, List.sum_cons] at ih ⊢ <;>
      omega

theorem sum_filter_comp_q (l : List ℚ) (p q : ℚ → Bool) (h : ∀ x, q x = !(p x)) :
    (l.filter p).sum + (l.filter q).sum = l.sum := by
  induction l with
  | nil => simp
  | cons a as ih =>
    have ha := h a
    by_cases hp : p a <;>
      simp [List.filter_cons, hp, ha, List.sum_cons, ← ih] <;> ring

theorem all_zero_of_sum_nonpos (l : List ℚ) (h0 : ∀ x ∈ l, 0 ≤ x)
    (hs : l.sum ≤ 0) : ∀ x ∈ l, x = 0 := by
  induction l with
  | nil => simp
  | cons a as ih =>
    have ha := h0 a (List.mem_cons_self a as)
    have has : 0 ≤ as.sum := List.sum_nonneg (fun x hx => h0 x (List.mem_cons_of_mem a hx))
    rw [List.sum_cons] at hs
    intro x hx
    rcases List.mem_cons.1 hx with rfl | hxas
    · linarith
    · exact ih (fun z hz => h0 z (List.mem_cons_of_mem a hz)) (by linarith) x hxas

theorem sum_const_of_all_eq (l : List ℚ) (c : ℚ) (h : ∀ x ∈ l, x = c) :
    l.sum = c * l.length := by
  induction l with
  | nil => simp
  | cons a as ih =>
    have ha := h a (List.mem_cons_self a as)
    rw [List.sum_cons, ih (fun x hx => h x (List.mem_cons_of_mem a hx)), ha,
      List.length_cons]
    push_cast
    ring

theorem manuSum_filter_ne (g : List Record) (k m : String) (hmk : m ≠ k) :
    manuSum (g.filter (fun r => ¬ r.manufacturer = k)) m = manuSum g m := by
  unfold manuSum
  rw [List.filter_filter]
  congr 1
  apply List.filter_congr
  intro r _
  by_cases h : r.manufacturer = m
  · simp [h, hmk]
  · simp [h]

theorem manu_partition : ∀ (ks : List String) (g : List Record), ks.Nodup →
    (∀ r ∈ g, r.manufacturer ∈ ks) →
    (ks.map (fun m => manuSum g m)).sum = sumReg g
  | [], g, _, hcov => by
    cases g with
    | nil => rfl
    | cons r rs => exact absurd (hcov r (List.mem_cons_self r rs)) (by simp)
  | k :: ks, g, hnd, hcov => by
    rcases List.nodup_cons.1 hnd with ⟨hk, hnd2⟩
    have hsplit : sumReg (g.filter (fun r => r.manufacturer = k))
        + sumReg (g.filter (fun r => ¬ r.manufacturer = k)) = sumReg g := by
      apply sumReg_filter_comp
      intro r
      by_cases h : r.manufacturer = k <;> simp [h]
    have hcong : (ks.map (fun m => manuSum g m)).sum
        = (ks.map (fun m => manuSum (g.filter (fun r => ¬ r.manufacturer = k)) m)).sum := by
      apply congrArg
      apply List.map_congr_left
      intro m hm
      exact (manuSum_filter_ne g k m (fun h => hk (h ▸ hm))).symm
    have hih := manu_partition ks (g.filter (fun r => ¬ r.manufacturer = k)) hnd2
      (by
        intro r hr
        have hrg := List.mem_filter.1 hr
        have h1 := hcov r hrg.1
        have h2 : ¬ r.manufacturer = k := by simpa using hrg.2
        rcases List.mem_cons.1 h1 with h3 | h3
        · exact absurd h3 h2
        · exact h3)
    rw [List.map_cons, List.sum_cons, hcong, hih]
    have : manuSum g k = sumReg (g.filter (fun r => r.manufacturer = k)) := rfl
    omega

theorem cast_sum_map (l : List String) (f : String → Nat) :
    ((l.map (fun m => (f m : ℚ))).sum) = ((l.map f).sum : ℚ) := by
  induction l with
  | nil => simp
  | cons a as ih => simp [List.map_cons, List.sum_cons, ih]

theorem sum_map_div_mul (l : List String) (f : String → ℚ) (T c : ℚ) :
    (l.map (fun m => f m / T * c)).sum = (l.map f).sum / T * c := by
  induction l with
  | nil => simp
  | cons a as ih =>
    rw [List.map_cons, List.sum_cons, ih, List.map_cons, List.sum_cons]
    ring

theorem sharesOf_eq_map (g : List Record) :
    ((sharesOf g).sum = ((manusOf g).map (fun m => shareOf g m)).sum)
    ∧ ∀ s ∈ sharesOf g, ∃ m, s = shareOf g m := by
  constructor
  · unfold sharesOf sharePairs
    rw [((sortD_perm (fun p : String × ℚ => p.2) _).map Prod.snd).sum_eq]
    rw [List.map_map]
    rfl
  · intro s hs
    unfold sharesOf sharePairs at hs
    have := ((sortD_perm (fun p : String × ℚ => p.2) _).map Prod.snd).mem_iff.1 hs
    rw [List.map_map] at this
    obtain ⟨m, -, hm⟩ := List.mem_map.1 this
    exact ⟨m, hm.symm⟩

theorem sharesOf_sum_pos (g : List Record) (hT : 0 < sumReg g) :
    (sharesOf g).sum = 100 := by
  rw [(sharesOf_eq_map g).1]
  unfold shareOf
  rw [sum_map_div_mul, cast_sum_map,
    manu_partition (manusOf g) g (nodup_uniq _) (fun r hr => mem_uniq.2 (List.mem_map_of_mem _ hr))]
  have hne : (sumReg g : ℚ) ≠ 0 := by
    exact_mod_cast Nat.pos_iff_ne_zero.1 hT
  field_simp

theorem shareOf_zero_total (g : List Record) (hT : sumReg g = 0) (m : String) :
    shareOf g m = 0 := by
  unfold shareOf
  rw [hT]
  simp

theorem shareOf_nonneg (g : List Record) (m : String) : 0 ≤ shareOf g m := by
  unfold shareOf
  positivity

theorem shareOf_le_100 (g : List Record) (m : String) : shareOf g m ≤ 100 := by
  rcases Nat.eq_zero_or_pos (sumReg g) with hT | hT
  · rw [shareOf_zero_total g hT]
    norm_num
  · unfold shareOf
    have hle : (manuSum g m : ℚ) ≤ (sumReg g : ℚ) := by
      exact_mod_cast sumReg_filter_le g (fun r => r.manufacturer = m)
    have hpos : (0 : ℚ) < (sumReg g : ℚ) := by exact_mod_cast hT
    have h1 : (manuSum g m : ℚ) / (sumReg g : ℚ) ≤ 1 := by
      rw [div_le_one hpos]
      exact hle
    nlinarith

theorem mem_sharesOf_bounds (g : List Record) {s : ℚ} (hs : s ∈ sharesOf g) :
    0 ≤ s ∧ s ≤ 100 := by
  obtain ⟨m, rfl⟩ := (sharesOf_eq_map g).2 s hs
  exact ⟨shareOf_nonneg g m, shareOf_le_100 g m⟩

theorem sharesOf_zero_total (g : List Record) (hT : sumReg g = 0) :
    ∀ s ∈ sharesOf g, s = 0 := by
  intro s hs
  obtain ⟨m, rfl⟩ := (sharesOf_eq_map g).2 s hs
  exact shareOf_zero_total g hT m

end ShareLemmas

section HHILemmas

theorem sq_sum_le_and_eq_iff (l : List ℚ) (h : ∀ x ∈ l, 0 ≤ x ∧ x ≤ 100) :
    (l.map (fun s => s ^ 2)).sum ≤ 100 * l.sum
    ∧ ((l.map (fun s => s ^ 2)).sum = 100 * l.sum ↔ ∀ x ∈ l, x = 0 ∨ x = 100) := by
  induction l with
  | nil => simp
  | cons a as ih =>
    obtain ⟨ha0, ha100⟩ := h a (List.mem_cons_self a as)
    obtain ⟨hle, hiff⟩ := ih (fun x hx => h x (List.mem_cons_of_mem a hx))
    have haq : a ^ 2 ≤ 100 * a := by nlinarith
    rw [List.map_cons, List.sum_cons, List.sum_cons]
    constructor
    · nlinarith
    · constructor
      · intro heq x hx
        have h2 : a ^ 2 = 100 * a ∧ (as.map (fun s => s ^ 2)).sum = 100 * as.sum := by
          constructor <;> nlinarith
        rcases List.mem_cons.1 hx with rfl | hxas
        · have hx0 : x * (x - 100) = 0 := by nlinarith [h2.1]
          rcases mul_eq_zero.1 hx0 with h3 | h3
          · exact Or.inl h3
          · exact Or.inr (by linarith)
        · exact (hiff.1 h2.2) x hxas
      · intro hall
        have has : (as.map (fun s => s ^ 2)).sum = 100 * as.sum :=
          hiff.2 (fun x hx => hall x (List.mem_cons_of_mem a hx))
        rcases hall a (List.mem_cons_self a as) with rfl | rfl <;>
          rw [has] <;> ring

theorem filter_100_length (l : List ℚ) (hall : ∀ x ∈ l, x = 0 ∨ x = 100)
    (hsum : l.sum = 100) : (l.filter (fun s => s = 100)).length = 1 := by
  have hsplit : (l.filter (fun s : ℚ => s = 100)).sum
      + (l.filter (fun s : ℚ => ¬ s = 100)).sum = l.sum := by
    apply sum_filter_comp_q
    intro x
    by_cases h : x = 100 <;> simp [h]
  have hz : ∀ x ∈ l.filter (fun s : ℚ => ¬ s = 100), x = 0 := by
    intro x hx
    have h1 := List.mem_filter.1 hx
    rcases hall x h1.1 with h2 | h2
    · exact h2
    · exact absurd h2 (by simpa using h1.2)
  have hzsum : (l.filter (fun s : ℚ => ¬ s = 100)).sum = 0 := by
    rw [sum_const_of_all_eq _ 0 hz]
    ring
  have hcsum : (l.filter (fun s : ℚ => s = 100)).sum
      = 100 * (l.filter (fun s : ℚ => s = 100)).length := by
    apply sum_const_of_all_eq
    intro x hx
    simpa using (List.mem_filter.1 hx).2
  have : (100 : ℚ) * (l.filter (fun s : ℚ => s = 100)).length = 100 := by
    rw [← hcsum]
    linarith
  have hlen : ((l.filter (fun s : ℚ => s = 100)).length : ℚ) = 1 := by linarith
  exact_mod_cast hlen

theorem hhi_eq_10000_of_one (l : List ℚ) (h0 : ∀ x ∈ l, 0 ≤ x)
    (hsum : l.sum = 100) (hlen : (l.filter (fun s => s = 100)).length = 1) :
    (l.map (fun s => s ^ 2)).sum = 10000 := by
  have hsplit : (l.filter (fun s : ℚ => s = 100)).sum
      + (l.filter (fun s : ℚ => ¬ s = 100)).sum = l.sum := by
    apply sum_filter_comp_q
    intro x
    by_cases h : x = 100 <;> simp [h]
  have hcsum : (l.filter (fun s : ℚ => s = 100)).sum
      = 100 * (l.filter (fun s : ℚ => s = 100)).length := by
    apply sum_const_of_all_eq
    intro x hx
    simpa using (List.mem_filter.1 hx).2
  rw [hlen] at hcsum
  have hrest : (l.filter (fun s : ℚ => ¬ s = 100)).sum ≤ 0 := by
    rw [hcsum] at hsplit
    push_cast at hsplit
    linarith
  have hz := all_zero_of_sum_nonpos _
    (fun x hx => h0 x (List.mem_filter.1 hx).1) hrest
  have hall : ∀ x ∈ l, x = 0 ∨ x = 100 := by
    intro x hx
    by_cases h : x = 100
    · exact Or.inr h
    · exact Or.inl (hz x (List.mem_filter.2 ⟨hx, by simpa using h⟩))
  have hb : ∀ x ∈ l, 0 ≤ x ∧ x ≤ 100 := by
    intro x hx
    rcases hall x hx with rfl | rfl <;> norm_num
  have := (sq_sum_le_and_eq_iff l hb).2.2 hall
  rw [this, hsum]
  norm_num

end HHILemmas

theorem take_sum_le_take_sum (l : List ℚ) (h0 : ∀ x ∈ l, 0 ≤ x) {m n : Nat}
    (hmn : m ≤ n) : (l.take m).sum ≤ (l.take n).sum := by
  have hn : n = m + (n - m) := by omega
  rw [hn, List.take_add, List.sum_append]
  have h1 : 0 ≤ ((l.drop m).take (n - m)).sum :=
    List.sum_nonneg (fun x hx =>
      h0 x (List.drop_subset m l (List.take_subset (n - m) (l.drop m) hx)))
  linarith

theorem take_sum_le_sum (l : List ℚ) (h0 : ∀ x ∈ l, 0 ≤ x) (n : Nat) :
    (l.take n).sum ≤ l.sum := by
  conv_rhs => rw [← List.take_append_drop n l]
  rw [List.sum_append]
  have h1 : 0 ≤ (l.drop n).sum :=
    List.sum_nonneg (fun x hx => h0 x (List.drop_subset n l hx))
  linarith

theorem hhiOf_nonneg (g : List Record) : 0 ≤ hhiOf g := by
  unfold hhiOf
  apply List.sum_nonneg
  intro x hx
  obtain ⟨s, -, rfl⟩ := List.mem_map.1 hx
  positivity

def rows3 : List Record :=
  [{ year := 2020, quarter := 1, vehicle_type := "2W", manufacturer := "A",
     registrations := 0, fuel_type := "" }]

def conc3 : Conc :=
  { total_manufacturers := 1, market_leader := "A", leader_share := 0,
    cr4_ratio := 0, cr8_ratio := 0, hhi_index := 0, effective_competitors := 0,
    market_structure := "Highly Competitive", top_5_shares := [("A", 0)] }

/-- C3 counterexample: a category whose only manufacturer has zero
registrations (shares are NaN in pandas, and the NaN-skipping sums make
`cr4 = 0`) has fewer than 4 manufacturers yet `cr4_ratio = 0 ≠ 100`, refuting
the unconditional `cr4 = 100` clause. -/
theorem c3_counterexample :
    calculate_market_concentration rows3 = [("2W", conc3)]
    ∧ conc3.total_manufacturers < 4 ∧ conc3.cr4_ratio ≠ 100 := by
  refine ⟨by decide, by decide, by decide⟩

/-- C3 (amended): for every record set and every category entry of
`calculate_market_concentration`: `0 ≤ hhi_index ≤ 10000`, with
`hhi_index = 10000` iff exactly one manufacturer holds a 100% share;
`cr4_ratio ≤ cr8_ratio ≤ 100`; and `cr4_ratio = 100` whenever the category has
fewer than 4 manufacturers *and a positive registration total* (for an
all-zero category the shares are degenerate and `cr4 = 0`, see
`c3_counterexample`). -/
theorem c3_concentration_invariants (rows : List Record) (vt : String) (c : Conc)
    (hmem : (vt, c) ∈ calculate_market_concentration rows) :
    0 ≤ c.hhi_index ∧ c.hhi_index ≤ 10000
    ∧ (c.hhi_index = 10000
        ↔ ((sharesOf (vtRows rows vt)).filter (fun s => s = 100)).length = 1)
    ∧ c.cr4_ratio ≤ c.cr8_ratio ∧ c.cr8_ratio ≤ 100
    ∧ (c.total_manufacturers < 4 → 0 < sumReg (vtRows rows vt) →
        c.cr4_ratio = 100) := by
  unfold calculate_market_concentration at hmem
  obtain ⟨vt2, hvt2, heq⟩ := List.mem_map.1 hmem
  injection heq with h1 h2
  subst h1
  subst h2
  simp only [concFor]
  have hb : ∀ x ∈ sharesOf (vtRows rows vt2), 0 ≤ x ∧ x ≤ 100 :=
    fun x hx => mem_sharesOf_bounds _ hx
  have h0 : ∀ x ∈ sharesOf (vtRows rows vt2), 0 ≤ x := fun x hx => (hb x hx).1
  have hsq := sq_sum_le_and_eq_iff (sharesOf (vtRows rows vt2)) hb
  have hhi_eq : hhiOf (vtRows rows vt2)
      = ((sharesOf (vtRows rows vt2)).map (fun s => s ^ 2)).sum := rfl
  refine ⟨hhiOf_nonneg _, ?_, ?_, ?_, ?_, ?_⟩
  · -- hhi ≤ 10000
    rcases Nat.eq_zero_or_pos (sumReg (vtRows rows vt2)) with hT | hT
    · have hz : (sharesOf (vtRows rows vt2)).sum = 0 := by
        rw [sum_const_of_all_eq _ 0 (sharesOf_zero_total _ hT)]
        ring
      rw [hhi_eq]
      have := hsq.1
      rw [hz] at this
      linarith
    · have hs := sharesOf_sum_pos _ hT
      rw [hhi_eq]
      have := hsq.1
      rw [hs] at this
      linarith
  · -- hhi = 10000 iff exactly one 100% share
    rcases Nat.eq_zero_or_pos (sumReg (vtRows rows vt2)) with hT | hT
    · have hz := sharesOf_zero_total _ hT
      have hhi0 : hhiOf (vtRows rows vt2) = 0 := by
        rw [hhi_eq, sum_const_of_all_eq _ 0 ?_]
        · ring
        · intro x hx
          obtain ⟨s, hs, rfl⟩ := List.mem_map.1 hx
          rw [hz s hs]
          ring
      have hfil : ((sharesOf (vtRows rows vt2)).filter (fun s => s = 100)) = [] := by
        rw [List.filter_eq_nil_iff]
        intro a ha
        rw [hz a ha]
        norm_num
      rw [hhi0, hfil]
      constructor
      · intro h
        norm_num at h
      · intro h
        norm_num at h
    · have hs := sharesOf_sum_pos _ hT
      constructor
      · intro hhiv
        have h100 : ((sharesOf (vtRows rows vt2)).map (fun s => s ^ 2)).sum
            = 100 * (sharesOf (vtRows rows vt2)).sum := by
          rw [hs, ← hhi_eq, hhiv]
          norm_num
        exact filter_100_length _ (hsq.2.1 h100) hs
      · intro hlen
        rw [hhi_eq]
        exact hhi_eq_10000_of_one _ h0 hs hlen
  · exact take_sum_le_take_sum _ h0 (by norm_num)
  · -- cr8 ≤ 100
    have h1 := take_sum_le_sum (sharesOf (vtRows rows vt2)) h0 8
    rcases Nat.eq_zero_or_pos (sumReg (vtRows rows vt2)) with hT | hT
    · have hz : (sharesOf (vtRows rows vt2)).sum = 0 := by
        rw [sum_const_of_all_eq _ 0 (sharesOf_zero_total _ hT)]
        ring
      unfold cr8Of
      rw [hz] at h1
      linarith
    · have hsv := sharesOf_sum_pos _ hT
      unfold cr8Of
      rw [hsv] at h1
      linarith
  · -- fewer than 4 manufacturers with positive total
    intro hlt hT
    have hlen : (sharesOf (vtRows rows vt2)).length ≤ 4 := by
      unfold sharesOf
      rw [List.length_map]
      omega
    unfold cr4Of
    rw [List.take_of_length_le hlen]
    exact sharesOf_sum_pos _ hT

def conc4 : Conc :=
  { total_manufacturers := 4, market_leader := "M1", leader_share := 40,
    cr4_ratio := 100, cr8_ratio := 100, hhi_index := 3000,
    effective_competitors := 10/3,
    market_structure := "Highly Concentrated (Oligopoly)",
    top_5_shares := [("M1", 40), ("M2", 30), ("M3", 20), ("M4", 10)] }

/-- Witness for C3: the invariants instantiated on the concrete
[40, 30, 20, 10] category. -/
theorem c3_concentration_invariants_witness :
    0 ≤ conc4.hhi_index ∧ conc4.hhi_index ≤ 10000 :=
  let h := c3_concentration_invariants rows4 "2W" conc4 (by decide)
  ⟨h.1, h.2.1⟩

/-- C4 counterexample: the source labels an HHI above 2500 as
"Highly Concentrated (Oligopoly)", not exactly "Highly Concentrated" as
claimed: the concrete [40, 30, 20, 10] category has HHI 3000 > 2500 and that
longer label. -/
theorem c4_counterexample :
    calculate_market_concentration rows4 = [("2W", conc4)]
    ∧ 2500 < conc4.hhi_index
    ∧ conc4.market_structure ≠ "Highly Concentrated" := by
  refine ⟨by decide, by decide, by decide⟩

/-- C4 (amended): `_classify_market_structure` applies exactly the claimed
thresholds (HHI > 2500, > 1500, > 1000, else), but two of the labels carry the
source's parenthetical qualifiers: "Highly Concentrated (Oligopoly)" and
"Unconcentrated (Competitive)".  The concrete scenario holds with the longer
label: shares [40, 30, 20, 10] give HHI = 3000, CR4 = 100, and structure
"Highly Concentrated (Oligopoly)". -/
theorem c4_structure_thresholds :
    (∀ h : ℚ,
      (2500 < h → classify_market_structure h = "Highly Concentrated (Oligopoly)")
      ∧ (1500 < h → h ≤ 2500 →
          classify_market_structure h = "Moderately Concentrated")
      ∧ (1000 < h → h ≤ 1500 →
          classify_market_structure h = "Unconcentrated (Competitive)")
      ∧ (h ≤ 1000 → classify_market_structure h = "Highly Competitive"))
    ∧ calculate_market_concentration rows4 = [("2W", conc4)]
    ∧ conc4.hhi_index = 3000 ∧ conc4.cr4_ratio = 100 := by
  refine ⟨?_, by decide, by decide, by decide⟩
  intro h
  refine ⟨fun h1 => ?_, fun h1 h2 => ?_, fun h1 h2 => ?_, fun h1 => ?_⟩
  · unfold classify_market_structure
    rw [if_pos h1]
  · unfold classify_market_structure
    rw [if_neg (by linarith), if_pos h1]
  · unfold classify_market_structure
    rw [if_neg (by linarith), if_neg (by linarith), if_pos h1]
  · unfold classify_market_structure
    rw [if_neg (by linarith), if_neg (by linarith), if_neg (by linarith)]

/-- Witness for C4: the first threshold applied at HHI 3000. -/
theorem c4_structure_thresholds_witness :
    classify_market_structure 3000 = "Highly Concentrated (Oligopoly)" :=
  (c4_structure_thresholds.1 3000).1 (by norm_num)

theorem growthScore_bounds (g : List Record) :
    0 ≤ growthScore g ∧ growthScore g ≤ 100 := by
  unfold growthScore
  split
  · norm_num
  · exact ⟨le_min (by norm_num) (le_max_left 0 _), min_le_left _ _⟩

theorem sizeScore_bounds (vt : String) : 0 ≤ sizeScore vt ∧ sizeScore vt ≤ 100 := by
  unfold sizeScore
  split
  · norm_num
  · split <;> norm_num

theorem competitionScore_bounds (rows : List Record) (vt : String) :
    0 ≤ competitionScore rows vt ∧ competitionScore rows vt ≤ 100 := by
  unfold competitionScore
  refine ⟨le_max_left 0 _, max_le (by norm_num) ?_⟩
  have := hhiOf_nonneg (vtRows rows vt)
  linarith

theorem innovationScore_bounds (g : List Record) (hf : Bool) :
    0 ≤ innovationScore g hf ∧ innovationScore g hf ≤ 100 := by
  unfold innovationScore
  split
  · exact ⟨le_min (by norm_num) (by positivity), min_le_left _ _⟩
  · norm_num

theorem overallRaw_bounds (g : List Record) (hf : Bool) (vt : String) :
    0 ≤ overallRaw g hf vt ∧ overallRaw g hf vt ≤ 100 := by
  obtain ⟨g1, g2⟩ := growthScore_bounds g
  obtain ⟨s1, s2⟩ := sizeScore_bounds vt
  obtain ⟨c1, c2⟩ := competitionScore_bounds g vt
  obtain ⟨i1, i2⟩ := innovationScore_bounds g hf
  unfold overallRaw
  constructor <;> nlinarith

/-- C5 counterexample: the returned `overall_score` is the weighted sum
rounded to one decimal, and the recommendation is chosen from the unrounded
sum, so the claim fails at the boundary: with a single 4W manufacturer growing
29.95% the unrounded sum is 74.96, the stored score is 75.0, the stored
sub-scores give 0.4*99.9 + 0.3*100 + 0.2*0 + 0.1*50 = 74.96 ≠ 75.0, and the
recommendation is "Buy ..." although the stored score meets the claimed
Strong-Buy threshold 75. -/
theorem c5_counterexample :
    generate_investment_scorecard rows5 false = [("4W", entry5)]
    ∧ entry5.overall_score ≠ entry5.growth_momentum * (4/10)
        + entry5.market_size * (3/10) + entry5.competition_intensity * (2/10)
        + entry5.innovation_potential * (1/10)
    ∧ 75 ≤ entry5.overall_score
    ∧ entry5.recommendation
        ≠ "Strong Buy - High growth potential with favorable market dynamics" := by
  refine ⟨by decide, by decide, by decide, by decide⟩

/-- C5 (amended): every scorecard entry's `overall_score` is the weighted sum
`0.4*growth + 0.3*size + 0.2*competition + 0.1*innovation` rounded to one
decimal, always lies in [0, 100], and the recommendation label is the claimed
threshold function of the *unrounded* weighted sum (so at rounding boundaries
it can disagree with the threshold applied to the stored score, see
`c5_counterexample`); this holds in particular for categories spanning a
single year, where the growth score degenerates to 0. -/
theorem c5_scorecard (rows : List Record) (hasFuel : Bool) (vt : String)
    (e : ScoreEntry) (hmem : (vt, e) ∈ generate_investment_scorecard rows hasFuel) :
    e.overall_score = pyRound1 (overallRaw (vtRows rows vt) hasFuel vt)
    ∧ 0 ≤ e.overall_score ∧ e.overall_score ≤ 100
    ∧ (75 ≤ overallRaw (vtRows rows vt) hasFuel vt →
        e.recommendation
          = "Strong Buy - High growth potential with favorable market dynamics")
    ∧ (60 ≤ overallRaw (vtRows rows vt) hasFuel vt →
        overallRaw (vtRows rows vt) hasFuel vt < 75 →
        e.recommendation = "Buy - Positive outlook with moderate risk")
    ∧ (40 ≤ overallRaw (vtRows rows vt) hasFuel vt →
        overallRaw (vtRows rows vt) hasFuel vt < 60 →
        e.recommendation = "Hold - Mixed signals, monitor closely")
    ∧ (overallRaw (vtRows rows vt) hasFuel vt < 40 →
        e.recommendation = "Avoid - Challenging market conditions") := by
  unfold generate_investment_scorecard at hmem
  obtain ⟨vt2, hvt2, heq⟩ := List.mem_map.1 hmem
  dsimp only at heq
  injection heq with h1 h2
  subst h1
  subst h2
  refine ⟨rfl, ?_, ?_, ?_, ?_, ?_, ?_⟩
  · exact pyRound1_nonneg (overallRaw_bounds _ hasFuel vt2).1
  · exact pyRound1_le_100 (overallRaw_bounds _ hasFuel vt2).2
  · intro h
    show recommendationFor (overallRaw (vtRows rows vt2) hasFuel vt2) = _
    unfold recommendationFor
    rw [if_pos h]
  · intro h1 h2
    show recommendationFor (overallRaw (vtRows rows vt2) hasFuel vt2) = _
    unfold recommendationFor
    rw [if_neg (by linarith), if_pos h1]
  · intro h1 h2
    show recommendationFor (overallRaw (vtRows rows vt2) hasFuel vt2) = _
    unfold recommendationFor
    rw [if_neg (by linarith), if_neg (by linarith), if_pos h1]
  · intro h1
    show recommendationFor (overallRaw (vtRows rows vt2) hasFuel vt2) = _
    unfold recommendationFor
    rw [if_neg (by linarith), if_neg (by linarith), if_neg (by linarith)]

def rows5b : List Record :=
  [{ year := 2020, quarter := 1, vehicle_type := "2W", manufacturer := "A",
     registrations := 100, fuel_type := "" }]

def entry5b : ScoreEntry :=
  { overall_score := 251/10, growth_momentum := 0, market_size := 67,
    competition_intensity := 0, innovation_potential := 50,
    recommendation := "Avoid - Challenging market conditions",
    avg_yoy_growth := none, total_market_size := 100,
    number_of_players := 1, market_leader := "A" }

/-- Witness for C5: the amended statement instantiated on a single-year
category (no YoY metric exists, the growth score degenerates to 0). -/
theorem c5_scorecard_witness :
    0 ≤ entry5b.overall_score ∧ entry5b.overall_score ≤ 100 :=
  let h := c5_scorecard rows5b false "2W" entry5b (by decide)
  ⟨h.2.1, h.2.2.1⟩

theorem groupMetrics_eq_nil {gb : List Col} {rows : List Record} {k : List String}
    (h : (groupYears (groupRows gb rows k)).length ≤ 1) :
    groupMetrics gb rows k = [] := by
  simp only [groupMetrics]
  rcases hys : groupYears (groupRows gb rows k) with _ | ⟨a, tl⟩
  · simp
  · rcases tl with _ | ⟨b, tl'⟩
    · simp
    · rw [hys] at h
      simp at h

/-- C1: for every input record set and grouping, the YoY branch of
`calculate_growth_metrics` emits, for each pair of chronologically consecutive
period sums of a group whose previous sum is positive, a metric with
`growth_rate = round((current - previous) / previous * 100, 2)` and
`growth_absolute = current - previous`; a group with at most one period
contributes no metric; and on the spec's concrete scenario
(records 2020-Q1/2W/A/1000 and 2021-Q1/2W/A/1500) the single YoY metric has
growth rate 50.0, absolute delta 500 and rank 1. -/
theorem c1_yoy_growth :
    (∀ (rows : List Record) (gb : List Col) (k : List String) (py cy : Nat),
      (py, cy) ∈ ((groupYears (groupRows gb rows k)).zip
        (groupYears (groupRows gb rows k)).tail) →
      0 < yearSum (groupRows gb rows k) py →
      ({ entity := entityName k
         period := toString cy
         current_value := yearSum (groupRows gb rows k) cy
         previous_value := yearSum (groupRows gb rows k) py
         growth_rate := pyRound2 (((yearSum (groupRows gb rows k) cy : ℚ)
           - (yearSum (groupRows gb rows k) py : ℚ))
           / (yearSum (groupRows gb rows k) py : ℚ) * 100)
         growth_absolute := (yearSum (groupRows gb rows k) cy : ℤ)
           - (yearSum (groupRows gb rows k) py : ℤ)
         rank := 0 } : GM)
        ∈ (calculate_growth_metrics_yoy gb rows).map stripRank)
    ∧ (∀ (rows : List Record) (gb : List Col) (k : List String),
        (groupYears (groupRows gb rows k)).length ≤ 1 →
        groupMetrics gb rows k = [])
    ∧ calculate_growth_metrics_yoy [Col.manufacturer, Col.vehicleType] demoRows
        = [{ entity := "A - 2W", period := "2021", current_value := 1500,
             previous_value := 1000, growth_rate := 50, growth_absolute := 500,
             rank := 1 }] := by
  refine ⟨?_, fun rows gb k h => groupMetrics_eq_nil h, by decide⟩
  intro rows gb k py cy hmem hpos
  have hgm : ({ entity := entityName k
                period := toString cy
                current_value := yearSum (groupRows gb rows k) cy
                previous_value := yearSum (groupRows gb rows k) py
                growth_rate := pyRound2 (((yearSum (groupRows gb rows k) cy : ℚ)
                  - (yearSum (groupRows gb rows k) py : ℚ))
                  / (yearSum (groupRows gb rows k) py : ℚ) * 100)
                growth_absolute := (yearSum (groupRows gb rows k) cy : ℤ)
                  - (yearSum (groupRows gb rows k) py : ℤ)
                rank := 0 } : GM) ∈ groupMetrics gb rows k := by
    simp only [groupMetrics, List.mem_filterMap]
    exact ⟨(py, cy), hmem, by rw [if_pos hpos]⟩
  simpa [stripRank] using mem_yoy_of_mem_group hgm

/-- Witness for C1: the general membership statement instantiated on the
spec's concrete scenario. -/
theorem c1_yoy_growth_witness :
    ({ entity := "A - 2W", period := "2021", current_value := 1500,
       previous_value := 1000, growth_rate := 50, growth_absolute := 500,
       rank := 0 } : GM)
      ∈ (calculate_growth_metrics_yoy [Col.manufacturer, Col.vehicleType]
          demoRows).map stripRank := by
  have h := c1_yoy_growth.1 demoRows [Col.manufacturer, Col.vehicleType]
    ["A", "2W"] 2020 2021 (by decide) (by decide)
  simpa using h

theorem exists_of_mem_assignRanks {l : List GM} {m : GM} (h : m ∈ assignRanks l) :
    ∃ m' ∈ l, stripRank m = stripRank m' := by
  unfold assignRanks at h
  obtain ⟨p, hp, rfl⟩ := List.mem_map.1 h
  have h2 : p.2 ∈ sortD (fun m : GM => m.growth_rate) l := by
    have := List.mem_map_of_mem Prod.snd hp
    rwa [List.enum_map_snd] at this
  exact ⟨p.2, (sortD_perm _ l).mem_iff.1 h2, rfl⟩

theorem previous_pos_of_mem_groupMetrics {gb : List Col} {rows : List Record}
    {k : List String} {m : GM} (h : m ∈ groupMetrics gb rows k) :
    0 < m.previous_value := by
  simp only [groupMetrics, List.mem_filterMap] at h
  obtain ⟨pc, -, hsome⟩ := h
  by_cases hpos : 0 < yearSum (groupRows gb rows k) pc.1
  · rw [if_pos hpos] at hsome
    have := Option.some.inj hsome
    subst this
    exact hpos
  · rw [if_neg hpos] at hsome
    cases hsome

/-- C6: neither growth computation ever divides by a zero previous value.  The
in-memory calculator guards `previous > 0` and emits no metric at all for a
zero previous sum (so every emitted metric has a positive previous value),
and the store's recompute inserts the row with a NULL growth rate; no
arithmetic fault can arise, both embeddings being total functions whose
division is reached only under the positivity guard. -/
theorem c6_zero_previous (rows : List Record) (gb : List Col) :
    (∀ m ∈ calculate_growth_metrics_yoy gb rows, 0 < m.previous_value)
    ∧ (∀ r ∈ db_yoy_manufacturer rows, r.previous_value = 0 → r.growth_rate = none) := by
  constructor
  · intro m hm
    obtain ⟨m', hm', hstrip⟩ := exists_of_mem_assignRanks hm
    obtain ⟨k, -, hk⟩ := List.mem_flatMap.1 hm'
    have hpos := previous_pos_of_mem_groupMetrics hk
    have heq := congrArg GM.previous_value hstrip
    simp only [stripRank] at heq
    omega
  · intro r hr hprev
    simp only [db_yoy_manufacturer, List.mem_filterMap] at hr
    obtain ⟨t, -, hsome⟩ := hr
    by_cases hp : prevYearPresent rows t.1 t.2.1 t.2.2
    · rw [if_pos hp] at hsome
      have := Option.some.inj hsome
      subst this
      have h0 : mvySum rows t.1 t.2.1 (t.2.2 - 1) = 0 := hprev
      rw [if_neg (by omega)]
    · rw [if_neg hp] at hsome
      cases hsome

/-- Witness for C6: the zero-previous database row of a concrete two-year
history stores a null growth rate. -/
theorem c6_zero_previous_witness :
    ({ manufacturer := "A", vehicle_type := "2W", period := "2021",
       current_value := 5, previous_value := 0, growth_rate := none,
       growth_absolute := 5 } : DbRow).growth_rate = none :=
  (c6_zero_previous rows6 []).2 _ (by decide) (by decide)

end Vahan
